import Mathlib

/-!
# Verification of the tracker generic API engine (`tracker/views/api.py`)

A shallow embedding of the generic search / mutation / resequencing engine of
the donation tracker, together with proofs about the properties its
specification states.  Python dictionaries of serialized fields become
association lists of `String × Value`; Django querysets become Lean lists; the
entity store and the external filter collaborator become explicit arguments;
exceptions become `Except ApiError`.  `del d[k]` on a missing key raises in
Python, so the privacy filters return `Option`, `none` standing for the raised
`KeyError`.
-/

/-- A serialized field value: JSON-serializable scalars, a key list for
prefetched multi-valued relations, or `null`. -/
inductive Value where
  | str (s : String)
  | int (n : Int)
  | keys (l : List Int)
  | null
  deriving Repr, DecidableEq

/-- Python truthiness for the values above (`if fields['lastname']:`). -/
def Value.truthy : Value → Bool
  | .str s => s ≠ ""
  | .int n => n ≠ 0
  | .keys l => l ≠ []
  | .null => false

/-- The `fields` mapping of one serialized record (a Python dict). -/
abbrev Fields := List (String × Value)

namespace Fields

def lookup (fs : Fields) (k : String) : Option Value :=
  (fs.find? (fun p => p.1 == k)).map Prod.snd

def hasKey (fs : Fields) (k : String) : Bool :=
  (fs.find? (fun p => p.1 == k)).isSome

/-- Dict assignment `d[k] = v`: replace the entry if present, else append. -/
def set (fs : Fields) (k : String) (v : Value) : Fields :=
  match fs with
  | [] => [(k, v)]
  | p :: rest => if p.1 == k then (k, v) :: rest else p :: set rest k v

/-- Remove every entry with the given key (a dict holds at most one). -/
def eraseKey (fs : Fields) (k : String) : Fields :=
  fs.filter (fun p => p.1 != k)

/-- `del d[k]`: `KeyError` (modelled as `none`) when the key is absent. -/
def delKey (fs : Fields) (k : String) : Option Fields :=
  if fs.hasKey k then some (fs.eraseKey k) else none

end Fields

/-- `fields['lastname'][0] + '...'` — defined only on non-empty strings; any
other value raises in Python (modelled as `none`). -/
def firstCharEllipsis : Value → Option Value
  | .str s => if s = "" then none else some (.str (String.mk (s.data.take 1) ++ "..."))
  | _ => none

/-- `donor_privacy_filter`, first block (api.py:276-277): visibility `FIRST`
truncates a truthy last name to its first character plus an ellipsis. -/
def donor_stage_first (visibility : Value) (fields : Fields) : Option Fields :=
  if visibility == .str "FIRST" then do
    let ln ← fields.lookup "lastname"
    if ln.truthy then
      let ln' ← firstCharEllipsis ln
      pure (fields.set "lastname" ln')
    else
      pure fields
  else
    pure fields

/-- `donor_privacy_filter`, second block (api.py:278-280). -/
def donor_stage_names (visibility : Value) (fields : Fields) : Option Fields :=
  if visibility == .str "ALIAS" || visibility == .str "ANON" then do
    let f ← fields.delKey "lastname"
    f.delKey "firstname"
  else
    pure fields

/-- `donor_privacy_filter`, third block (api.py:281-284). -/
def donor_stage_anon (visibility : Value) (fields : Fields) : Option Fields :=
  if visibility == .str "ANON" then do
    let f ← fields.delKey "alias"
    let f ← f.delKey "alias_num"
    f.delKey "canonical_url"
  else
    pure fields

/-- `donor_privacy_filter` (api.py:274): its three sequential blocks. -/
def donor_privacy_filter (fields : Fields) : Option Fields := do
  let visibility ← fields.lookup "visibility"
  let fields ← donor_stage_first visibility fields
  let fields ← donor_stage_names visibility fields
  donor_stage_anon visibility fields

/-- `donation_privacy_filter`, first block (api.py:288-290). -/
def donation_stage_comment (commentstate : Value) (fields : Fields) : Option Fields :=
  if commentstate != .str "APPROVED" then do
    let f ← fields.delKey "comment"
    f.delKey "commentlanguage"
  else
    pure fields

/-- `donation_privacy_filter`, second block (api.py:292-297); the
`donor__visibility` subscript itself raises when the key is missing. -/
def donation_stage_anon (fields : Fields) : Option Fields := do
  let donorVisibility ← fields.lookup "donor__visibility"
  if donorVisibility == .str "ANON" then do
    let f ← fields.delKey "donor"
    let f ← f.delKey "donor__alias"
    let f ← f.delKey "donor__alias_num"
    let f ← f.delKey "donor__visibility"
    f.delKey "donor__canonical_url"
  else
    pure fields

/-- `donation_privacy_filter` (api.py:287): its two sequential blocks. -/
def donation_privacy_filter (fields : Fields) : Option Fields := do
  let commentstate ← fields.lookup "commentstate"
  let fields ← donation_stage_comment commentstate fields
  donation_stage_anon fields

/-- `run_privacy_filter` (api.py:300). -/
def run_privacy_filter (fields : Fields) : Option Fields := do
  let f ← fields.delKey "tech_notes"
  f.delKey "layout"

/-!
## Mutation field allowlist (`filter_fields` and the `add`/`edit` check)

`model_admin.get_fields` (flattened) and `get_readonly_fields` are the
write-authorization collaborator; they arrive as plain lists.
-/

/-- `filter_fields` (api.py:578). -/
def filter_fields (fields writable readonly : List String) : List String :=
  fields.filter (fun field => writable.contains field && !readonly.contains field)

/-- The `bad_fields` computation shared by `add` (api.py:606-607) and `edit`
(api.py:693-694): `set(good_fields) - set(params.keys())`, as an
insertion-ordered deduplicated list. -/
def mutation_bad_fields (params writable readonly : List String) : List String :=
  ((filter_fields params writable readonly).filter
    (fun field => !params.contains field)).dedup

/-- A JSON scalar as produced by `json.loads` on the literals this API feeds
it. -/
inductive JScalar where
  | jstr (s : String)
  | jint (n : Int)
  deriving Repr, DecidableEq

/-- A JSON value as produced by `json.loads` on the flat literals this API
feeds it: scalars and arrays of scalars.  (Object literals and nested arrays
are not produced by any caller of the relation-coercion code; such a token
simply fails to parse in this model, as any non-literal does.) -/
inductive JVal where
  | scalar (v : JScalar)
  | jarr (elems : List JScalar)
  deriving Repr, DecidableEq

/-- The exception classes the view code raises (all are turned into structured
error responses by `generic_api_view`); `badPks` is the
`DoesNotExist('Invalid pks: %s' % bad_pks)` of `parse_value`, with the
reported key set carried structurally since Python renders a set in
nondeterministic order. -/
inductive ApiError where
  | permissionDenied (msg : String)
  | keyError (msg : String)
  | valueError (msg : String)
  | doesNotExist (msg : String)
  | badPks (requested : List JScalar)
  | attributeError (msg : String)
  | http404
  | indexError
  deriving Repr, DecidableEq

/-- Lines 693-699 of `edit` (identical in `add`, lines 606-612). -/
def mutation_field_check (params writable readonly : List String) :
    Except ApiError Unit :=
  let bad := mutation_bad_fields params writable readonly
  if bad.isEmpty then .ok ()
  else .error (.permissionDenied
    ("You do not have permission to set the following field(s): "
      ++ String.intercalate "," (bad.mergeSort (· ≤ ·))))

/-!
## Value coercion: `parse_value` (api.py:506)

The related model's manager and table are external collaborators; they appear
as an explicit `RelatedModelState`.  `json.loads` (Python stdlib) is embedded
for the flat literals this code feeds it.
-/

def isWs (c : Char) : Bool := c = ' ' || c = '\t' || c = '\n' || c = '\r'

def digitsToNat (cs : List Char) : Nat :=
  cs.foldl (fun acc c => acc * 10 + (c.toNat - 48)) 0

/-- `int(...)` / Django integer-pk coercion: optional sign and digits,
surrounding whitespace allowed. -/
def pyIntChars (cs : List Char) : Option Int :=
  let t := ((cs.dropWhile isWs).reverse.dropWhile isWs).reverse
  let p := match t with
    | '-' :: rest => (true, rest)
    | '+' :: rest => (false, rest)
    | _ => (false, t)
  if p.2.isEmpty || !(p.2.all (·.isDigit)) then none
  else some (if p.1 then -(digitsToNat p.2 : Int) else (digitsToNat p.2 : Int))

def pyInt? (s : String) : Option Int := pyIntChars s.data

/-- `s[0] == c` (`False` on the empty string; callers check emptiness where
Python would raise `IndexError`). -/
def headIs (s : String) (c : Char) : Bool := s.data.head? == some c

def splitChars (sep : Char) : List Char → List (List Char)
  | [] => [[]]
  | c :: cs =>
    match splitChars sep cs with
    | [] => [[]]
    | g :: gs => if c = sep then [] :: g :: gs else (c :: g) :: gs

/-- Python `s.split(sep)` for a one-character separator. -/
def pySplit (s : String) (sep : Char) : List String :=
  (splitChars sep s.data).map (fun g => String.mk g)

/-- `'__' in s`. -/
def hasDoubleUnderscore (s : String) : Bool := go s.data
where
  go : List Char → Bool
    | '_' :: '_' :: _ => true
    | _ :: cs => go cs
    | [] => false

/-- `s.endswith('id')`. -/
def endsWithId (s : String) : Bool :=
  match s.data.reverse with
  | 'd' :: 'i' :: _ => true
  | _ => false

def skipWs (cs : List Char) : List Char := cs.dropWhile (· = ' ')

/-- Characters of a JSON string body up to the closing quote. -/
def parseJStr : List Char → Option (String × List Char)
  | [] => none
  | c :: cs =>
    if c = '"' then some ("", cs)
    else (parseJStr cs).map (fun p => (String.singleton c ++ p.1, p.2))

/-- A JSON integer literal prefix. -/
def parseJInt (cs : List Char) : Option (Int × List Char) :=
  let (neg, cs') := if cs.head? = some '-' then (true, cs.tail) else (false, cs)
  let digits := cs'.takeWhile (·.isDigit)
  let rest := cs'.dropWhile (·.isDigit)
  if digits.isEmpty then none
  else
    let n : Nat := digits.foldl (fun acc c => acc * 10 + (c.toNat - 48)) 0
    some (if neg then -(n : Int) else (n : Int), rest)

/-- A JSON scalar (string or integer) prefix. -/
def parseJScalar (cs : List Char) : Option (JScalar × List Char) :=
  match skipWs cs with
  | '"' :: rest => (parseJStr rest).map (fun p => (.jstr p.1, p.2))
  | cs' => (parseJInt cs').map (fun p => (.jint p.1, p.2))

/-- Comma-separated scalars terminated by `]`. -/
def parseJElems : Nat → List Char → Option (List JScalar × List Char)
  | 0, _ => none
  | fuel + 1, cs =>
    match parseJScalar cs with
    | none => none
    | some (v, rest) =>
      match skipWs rest with
      | ',' :: rest2 => (parseJElems fuel rest2).map (fun p => (v :: p.1, p.2))
      | ']' :: rest2 => some ([v], rest2)
      | _ => none

/-- `json.loads` on the flat literals reaching the relation-coercion code. -/
def jparse (s : String) : Option JVal :=
  match skipWs s.data with
  | '[' :: rest =>
    match skipWs rest with
    | ']' :: rest2 => if (skipWs rest2).isEmpty then some (.jarr []) else none
    | rest2 =>
      match parseJElems s.length rest2 with
      | some (vs, rest3) => if (skipWs rest3).isEmpty then some (.jarr vs) else none
      | none => none
  | cs =>
    match parseJScalar cs with
    | some (v, rest) => if (skipWs rest).isEmpty then some (.scalar v) else none
    | none => none

/-- `to_natural_key` (api.py:502). -/
def to_natural_key : JVal → List JScalar
  | .jarr l => l
  | .scalar v => [v]

/-- Coercion a requested key undergoes inside the store's `pk__in` filter
(`1` and `"1"` both hit integer pk `1`; an uncoercible key raises, which
`parse_value` catches). -/
def jvalPkCoerce : JScalar → Option Int
  | .jint n => some n
  | .jstr s => pyInt? s

/-- Python `==` between a requested key and an integer primary key: a string
key never equals an integer, whatever it spells. -/
def jvalEqInt : JScalar → Int → Bool
  | .jint n, pk => n == pk
  | .jstr _, _ => false

/-- The related entity kind as the coercion code sees it: its primary keys,
its natural-key table, whether its manager offers get-or-create by natural
key, the capability string guarding creation, and the pk the store would
assign to a new row. -/
structure RelatedModelState where
  pks : List Int
  nks : List (List JScalar × Int)
  hasGetOrCreate : Bool
  addPerm : String
  nextPk : Int
  deriving Repr, DecidableEq

def nkLookup (nks : List (List JScalar × Int)) (key : List JScalar) : Option Int :=
  (nks.find? (fun p => p.1 == key)).map Prod.snd

/-- Static description of the field being coerced: `none` for a non-relation
field, otherwise the related kind plus whether the relation is multi-valued. -/
structure FieldMeta where
  relatedModel : Option RelatedModelState
  manyToMany : Bool

/-- Result of `parse_value`: `null`, the raw scalar, one related instance, or
a list of related instances (by pk). -/
inductive Parsed where
  | null
  | scalar (s : String)
  | one (pk : Int)
  | many (pks : List Int)
  deriving Repr, DecidableEq

/-- The natural-key tuple of a single-valued relation token (api.py:548-559):
a JSON literal when the token opens like one, else the bare token as a
one-element key. -/
def natural_key_of (field value : String) : Except ApiError (List JScalar) :=
  if headIs value '"' || headIs value '[' || headIs value '{' then
    match jparse value with
    | some (.jarr l) => .ok l
    | some (.scalar v) => .ok [v]
    | none => .error (.valueError
        ("Value " ++ value
          ++ " could not be parsed as json for natural key lookup on field "
          ++ field))
  else .ok [JScalar.jstr value]

/-- `set(pks) - set(m.pk for m in results)` — the requested keys with no
Python-equal resolved pk, as an insertion-ordered set. -/
def badPkSet (pks : List JScalar) (results : List Int) : List JScalar :=
  (pks.filter (fun k => !(results.any (fun pk => jvalEqInt k pk)))).dedup

/-- `parse_value` (api.py:506-566).  Returns the coerced value together with
the (possibly grown) related-model state. -/
def parse_value (meta : FieldMeta) (field value : String) (perms : List String) :
    Except ApiError (Parsed × Option RelatedModelState) :=
  if value = "None" then .ok (.null, meta.relatedModel)
  else
    match meta.relatedModel with
    | none => .ok (.scalar value, none)
    | some rm =>
      if meta.manyToMany then do
        let pks : List JScalar ←
          if value = "" then .error .indexError
          else if headIs value '[' then
            match jparse value with
            | some (.jarr l) => .ok l
            | _ => .error (.valueError
                ("Value for field " ++ field
                  ++ " could not be parsed as json array for m2m lookup"))
          else .ok ((pySplit value ',').map JScalar.jstr)
        match pks.mapM jvalPkCoerce with
        | some ipks =>
          let results := rm.pks.filter (fun pk => ipks.contains pk)
          if pks.length ≠ results.length then
            .error (.badPks (badPkSet pks results))
          else .ok (.many results, some rm)
        | none => do
          let results ← pks.mapM (fun k =>
            match nkLookup rm.nks (to_natural_key (.scalar k)) with
            | some pk => Except.ok pk
            | none => Except.error (.doesNotExist
                "matching natural key does not exist"))
          if pks.length ≠ results.length then
            .error (.badPks (badPkSet pks results))
          else .ok (.many results, some rm)
      else
        match pyInt? value with
        | some pk =>
          -- a coercible pk that resolves to no row raises DoesNotExist, which
          -- is not caught here: only the ValueError of an uncoercible token
          -- triggers the natural-key fallback
          if rm.pks.contains pk then .ok (.one pk, some rm)
          else .error (.doesNotExist "matching query does not exist")
        | none =>
          if value = "" then .error .indexError
          else do
            let key : List JScalar ← natural_key_of field value
            if rm.hasGetOrCreate && perms.contains rm.addPerm then
              match nkLookup rm.nks key with
              | some pk => .ok (.one pk, some rm)
              | none =>
                let pk := rm.nextPk
                .ok (.one pk, some { rm with
                  pks := rm.pks ++ [pk]
                  nks := rm.nks ++ [(key, pk)]
                  nextPk := pk + 1 })
            else
              match nkLookup rm.nks key with
              | some pk => .ok (.one pk, some rm)
              | none => .error (.doesNotExist
                  "matching natural key does not exist")

/-!
## The search endpoint (api.py:372-499)

`search_filters.run_model_query` (the external filter-builder collaborator)
and the entity store appear as a `SearchEnv`: the rows the opaque filter
produced, with their prefetched relations and precomputed aggregate
annotations attached (the two-pass annotated re-query of api.py:418-429 is the
store collaborator's mechanism for producing exactly these rows).  The
serialized shape of one row is modelled by `Instance`.
-/

/-- A related instance as the one-level flattening sees it. -/
structure RelInst where
  pk : Int
  fields : Fields
  visibleName : Option String
  strRepr : String
  deriving Repr, DecidableEq

/-- One row of the page: raw model fields, the optional `visible_name`
formatter output, the generic string conversion, the precomputed aggregate
values, prefetched multi-valued relation key sets, and the serializable
single-valued related instances (an absent or non-serializable relation is
simply missing). -/
structure Instance where
  pk : Int
  fields : Fields
  visibleName : Option String
  strRepr : String
  annots : Fields
  prefetched : List (String × List Int)
  rels : List (String × RelInst)
  deriving Repr, DecidableEq

/-- `modelmap` keys (api.py:74). -/
def modelNames : List String :=
  ["bid", "bidtarget", "allbids", "donationbid", "donation", "donor",
   "headset", "milestone", "event", "prize", "run", "runner", "country"]

/-- `related` (api.py:96). -/
def relatedMap : String → List String
  | "bid" => ["speedrun", "event", "parent", "parent__event"]
  | "allbids" => ["speedrun", "event", "parent", "parent__event"]
  | "bidtarget" => ["speedrun", "event", "parent", "parent__event"]
  | "donation" => ["donor"]
  | "prize" => ["category", "startrun", "endrun", "prev_run", "next_run"]
  | _ => []

/-- `prefetch` (api.py:105). -/
def prefetchMap : String → List String
  | "prize" => ["allowed_prize_countries", "disallowed_prize_regions"]
  | "event" => ["allowed_prize_countries", "disallowed_prize_regions"]
  | "run" => ["runners", "hosts", "commentators"]
  | _ => []

/-- `prize_run_fields` (api.py:111). -/
def prize_run_fields : List String :=
  ["name", "starttime", "endtime", "display_name", "order", "category"]

/-- `bid_fields['__self__']` (api.py:113). -/
def bid_self_fields : List String :=
  ["event", "speedrun", "parent", "name", "state", "description",
   "shortdescription", "goal", "repeat", "istarget", "allowuseroptions",
   "option_max_length", "revealedtime", "biddependency", "total", "count",
   "pinned"]

/-- `included_fields[ty]['__self__']` (api.py:154);
`include_fields.get('__self__', None)` is `none` for kinds without an entry. -/
def includedSelf : String → Option (List String)
  | "bid" => some bid_self_fields
  | "bidtarget" => some bid_self_fields
  | "allbids" => some bid_self_fields
  | "donationbid" => some ["bid", "donation", "amount"]
  | "donation" => some
      ["donor", "event", "domain", "transactionstate", "readstate",
       "commentstate", "amount", "currency", "timereceived", "comment",
       "commentlanguage", "pinned"]
  | "donor" => some ["alias", "alias_num", "firstname", "lastname", "visibility"]
  | "event" => some
      ["short", "name", "hashtag", "receivername", "receiver_short",
       "targetamount", "minimumdonation", "paypalemail", "paypalcurrency",
       "datetime", "timezone", "locked", "allow_donations",
       "use_one_step_screening"]
  | "prize" => some
      ["name", "category", "image", "altimage", "imagefile", "description",
       "shortdescription", "estimatedvalue", "minimumbid", "maximumbid",
       "sumdonations", "randomdraw", "event", "startrun", "endrun",
       "starttime", "endtime", "maxwinners", "maxmultiwin", "provider",
       "creator", "creatoremail", "creatorwebsite", "custom_country_filter",
       "key_code"]
  | _ => none

/-- `included_fields[ty][related_field]` (api.py:154), i.e.
`include_fields.get(related_field, None)`. -/
def includedRel : String → String → Option (List String)
  | "bid", rel => includedRelBid rel
  | "bidtarget", rel => includedRelBid rel
  | "allbids", rel => includedRelBid rel
  | "donation", "donor" => some ["alias", "alias_num", "visibility"]
  | "prize", "startrun" => some prize_run_fields
  | "prize", "endrun" => some prize_run_fields
  | "prize", "category" => some ["name"]
  | _, _ => none
where
  includedRelBid : String → Option (List String)
    | "speedrun" => some
        ["name", "display_name", "twitch_name", "order", "starttime",
         "endtime", "public"]
    | "event" => some ["short", "name", "timezone", "datetime"]
    | "parent" => some
        ["name", "state", "goal", "allowuseroptions", "option_max_length",
         "total", "count"]
    | _ => none

/-- `annotations` keys per kind (api.py:238); the aggregate expressions
themselves run inside the store. -/
def aggNames : String → List String
  | "event" => ["amount", "count", "max", "avg"]
  | "prize" => ["numwinners"]
  | _ => []

/-- Modelled from the spec: `TrackerSerializer` (tracker/serializers.py is not
under src/) — "emit the self-field allowlist" (§4.3), with no allowlist
meaning every field, plus the canonical-identifier field that the redaction
rules of §4.4 expect to be present on serialized records ("visibility
'anonymous' additionally removes alias, alias-number, and any
canonical-identifier field"). -/
def serializeFields (instFields : Fields) (allow : Option (List String)) : Fields :=
  match allow with
  | none => instFields
  | some names =>
    (names.filterMap (fun n => (instFields.lookup n).map (fun v => (n, v))))
      ++ (if names.contains "canonical_url" then []
          else
            match instFields.lookup "canonical_url" with
            | some v => [("canonical_url", v)]
            | none => [])

/-- The per-record enrichment loop of `search` (api.py:440-482): the display
string, the coerced aggregate values, the prefetched key sets, and the
one-level flattening of serializable related instances under
`relation__field` names (skipping nested keys ending in `id`), each with its
own `relation__public` display string. -/
def enrichInstance (ty : String) (inst : Instance) : Except ApiError Fields := do
  let f := serializeFields inst.fields (includedSelf ty)
  let f := f.set "public"
    (.str (match inst.visibleName with | some n => n | none => inst.strRepr))
  -- annotation coercion: the store hands back already-typed aggregates, so
  -- the int/float coercion functions are the identity here
  let f ← (aggNames ty).foldlM (fun acc a =>
    match Fields.lookup inst.annots a with
    | some v => Except.ok (acc.set a v)
    | none => Except.error (.attributeError a)) f
  let f ← (prefetchMap ty).foldlM (fun acc p =>
    if hasDoubleUnderscore p then Except.ok acc
    else
      match (inst.prefetched.find? (fun q => q.1 == p)).map Prod.snd with
      | some ids => Except.ok (acc.set p (.keys ids))
      | none => Except.error (.attributeError p)) f
  let f := (relatedMap ty).foldl (fun acc r =>
    match (inst.rels.find? (fun q => q.1 == r)).map Prod.snd with
    | none => acc
    | some rel =>
      let rd := serializeFields rel.fields (includedRel ty r)
      let acc := rd.foldl (fun a kv =>
        if endsWithId kv.1 then a
        else a.set (r ++ "__" ++ kv.1) kv.2) acc
      acc.set (r ++ "__public")
        (.str (match rel.visibleName with | some n => n | none => rel.strRepr))) f
  return f

/-- The privacy-filter dispatch of `search` (api.py:483-488). -/
def applyPrivacy (ty : String) (dn ac tn : Bool) (f : Fields) : Option Fields :=
  if ty == "donor" && !dn then donor_privacy_filter f
  else if ty == "donation" && !ac then donation_privacy_filter f
  else if ty == "run" && !tn then run_privacy_filter f
  else some f

/-- One record of the response: serialization, enrichment, then privacy
redaction (a `none` from a filter is the raised `KeyError`). -/
def processInstance (ty : String) (dn ac tn : Bool) (inst : Instance) :
    Except ApiError Fields := do
  let f ← enrichInstance ty inst
  match applyPrivacy ty dn ac tn f with
  | some g => .ok g
  | none => .error (.keyError "privacy filter: missing key")

/-!
### Request parsing (api.py:345-408) and the endpoint itself
-/

/-- The request's flat parameter mapping (`QueryDict`): each key carries the
list of values it was supplied with. -/
abbrev QueryDict := List (String × List String)

def qdLookup (qd : QueryDict) (k : String) : Option (List String) :=
  (qd.find? (fun p => p.1 == k)).map Prod.snd

def qdErase (qd : QueryDict) (k : String) : QueryDict :=
  qd.filter (fun p => p.1 != k)

/-- `single` (api.py:345): pop a mandatory unrepeated parameter. -/
def single (qd : QueryDict) (key : String) : Except ApiError (String × QueryDict) :=
  match qdLookup qd key with
  | none => .error (.keyError ("Missing parameter: " ++ key))
  | some [v] => .ok (v, qdErase qd key)
  | some _ => .error (.keyError ("Parameter repeated: " ++ key))

/-- `single` with a fallback (api.py:345-354). -/
def singleOpt (qd : QueryDict) (key : String) :
    Except ApiError (Option String × QueryDict) :=
  match qdLookup qd key with
  | none => .ok (none, qd)
  | some [v] => .ok (some v, qdErase qd key)
  | some _ => .error (.keyError ("Parameter repeated: " ++ key))

/-- `present` (api.py:357): a value-less flag. -/
def present (qd : QueryDict) (key : String) : Except ApiError (Bool × QueryDict) :=
  match qdLookup qd key with
  | none => .ok (false, qd)
  | some [v] =>
    if v != "" then .error (.valueError (key ++ " parameter does not take a value"))
    else .ok (true, qdErase qd key)
  | some _ => .error (.keyError ("Parameter repeated: " ++ key))

/-- The principal, reduced to the capability oracle `has_perm`. -/
structure User where
  perms : List String
  deriving Repr, DecidableEq

def User.has_perm (u : User) (p : String) : Bool := u.perms.contains p

/-- The validated request: kind, the four privilege flags, and the pagination
window. -/
structure SearchQuery where
  ty : String
  queries : Bool
  donorNames : Bool
  allComments : Bool
  techNotes : Bool
  offset : Int
  limit : Int
  deriving Repr, DecidableEq

/-- `if cond: raise err` as a guard step. -/
def check (c : Bool) (e : ApiError) : Except ApiError Unit :=
  if c then .error e else .ok ()

/-- `int(single(params, key, dflt))`: parse the popped value, or take the
integer fallback. -/
def intParamOr (v : Option String) (dflt : Int) : Except ApiError Int :=
  match v with
  | some s =>
    match pyInt? s with
    | some n => .ok n
    | none => .error (.valueError ("invalid literal for int: " ++ s))
  | none => .ok dflt

/-- Parameter parsing and checking of `search` (api.py:373-408), in source
order: pop `type` and the four flags, validate the kind, check each flag's
applicability and capability, then parse `offset` (default 0) and `limit`
(default and hard ceiling `settings.TRACKER_PAGINATION_LIMIT`, passed in as
`ceiling`). -/
def parseSearch (params : QueryDict) (u : User) (ceiling : Int) :
    Except ApiError SearchQuery := do
  let (ty, p) ← single params "type"
  let (queries, p) ← present p "queries"
  let (dn, p) ← present p "donor_names"
  let (ac, p) ← present p "all_comments"
  let (tn, p) ← present p "tech_notes"
  let _ ← check (!(modelNames.contains ty))
    (.keyError (ty ++ " is not a recognized model type"))
  let _ ← check (queries && !(u.has_perm "tracker.view_queries"))
    (.permissionDenied "")
  let _ ← check (dn && ty != "donor")
    (.keyError "donor_names can only be applied to donor searches")
  let _ ← check (dn && !(u.has_perm "tracker.view_usernames"))
    (.permissionDenied "")
  let _ ← check (ac && ty != "donation")
    (.keyError "all_comments can only be applied to donation searches")
  let _ ← check (ac && !(u.has_perm "tracker.view_comments"))
    (.permissionDenied "")
  let _ ← check (tn && ty != "run")
    (.keyError "tech_notes can only be applied to run searches")
  let _ ← check (tn && !(u.has_perm "tracker.can_view_tech_notes"))
    (.permissionDenied "")
  let (offS, p) ← singleOpt p "offset"
  let offset ← intParamOr offS 0
  let (limS, _p) ← singleOpt p "limit"
  let limitParam ← intParamOr limS ceiling
  let _ ← check (limitParam > ceiling)
    (.valueError "limit can not be above the configured limit")
  let _ ← check (limitParam < 1)
    (.valueError "limit must be at least 1")
  return { ty := ty, queries := queries, donorNames := dn, allComments := ac,
           techNotes := tn, offset := offset, limit := min ceiling limitParam }

/-- What the external collaborators hand the endpoint: the rows produced by
the opaque filter (`run_model_query`) and the configured pagination ceiling. -/
structure SearchEnv where
  rows : List Instance
  ceiling : Int

/-- The body of the HTTP response: the serialized records, or the database
query log when the `queries` flag is honoured. -/
inductive RespBody where
  | data (records : List Fields)
  | queryLog
  deriving Repr, DecidableEq

/-- The computed result list together with the body actually returned. -/
structure SearchOutcome where
  result : List Fields
  body : RespBody
  deriving Repr, DecidableEq

/-- `qs[offset : offset + limit]` (api.py:416). -/
def pageOf (rows : List Instance) (offset limit : Int) : List Instance :=
  (rows.drop offset.toNat).take limit.toNat

/-- `mapM` for `Except`, with the definitional unfolding the proofs need. -/
def exceptMapM (f : α → Except ε β) : List α → Except ε (List β)
  | [] => .ok []
  | x :: xs => do
    let y ← f x
    let ys ← exceptMapM f xs
    .ok (y :: ys)

/-- The record list of the response (api.py:416-488); the store rejects
negative slice bounds. -/
def searchRecords (env : SearchEnv) (q : SearchQuery) :
    Except ApiError (List Fields) :=
  if q.offset < 0 then .error (.valueError "Negative indexing is not supported.")
  else
    exceptMapM (processInstance q.ty q.donorNames q.allComments q.techNotes)
      (pageOf env.rows q.offset q.limit)

/-- The `search` endpoint (api.py:372-499): parse and check, compute the full
serialized and privacy-filtered result, then answer with the query log
instead of the result when the `queries` flag was honoured (api.py:493-497 —
the result is still computed, then discarded). -/
def runSearch (env : SearchEnv) (u : User) (params : QueryDict) :
    Except ApiError SearchOutcome := do
  let q ← parseSearch params u env.ceiling
  let records ← searchRecords env q
  return { result := records
           body := if q.queries then .queryLog else .data records }

/-!
## The interstitial reorder endpoint (api.py:866-928)

The `Interstitial` table becomes a list of `Item`s.  Querysets come back in
the store's stable default order; for interstitials that is rank order within
a slot (modelled from the spec: "the registry's stable default order for that
kind", §4.2, with rank dense within a slot, §4.6 — the model class itself,
tracker/models, is not under src/), embodied here by an insertion sort on
`suborder`.  The slices of api.py:888-907 are evaluated lazily after the
first `model.save()`, but they all exclude the moved item, so they equal
filters of the initial state without it.  `model.event.locked` is carried on
the item as `eventLocked`.
-/

/-- One interstitial row: primary key, slot (`order`), rank (`suborder`), and
whether its event is locked. -/
structure Item where
  id : Int
  order : Int
  suborder : Int
  eventLocked : Bool
  deriving Repr, DecidableEq

/-- The full interstitial table. -/
abbrev IState := List Item

def insertBySub (x : Item) : List Item → List Item
  | [] => [x]
  | y :: ys => if x.suborder ≤ y.suborder then x :: y :: ys else y :: insertBySub x ys

/-- The store's default order for a slot's rows: ascending rank. -/
def sortBySub (l : List Item) : List Item := l.foldr insertBySub []

/-- The new field values one `model.save()` writes to the moved row. -/
def modelSave (iid ord sub : Int) (x : Item) : Item :=
  if x.id == iid then { x with order := ord, suborder := sub } else x

/-- `model.order = ...; model.suborder = ...; model.save()`. -/
def saveOrderSub (st : IState) (iid ord sub : Int) : IState :=
  st.map (modelSave iid ord sub)

/-- `m.suborder = ...; m.save()` for a sibling (its slot is unchanged). -/
def saveSub (st : IState) (iid sub : Int) : IState :=
  st.map (fun x => if x.id == iid then { x with suborder := sub } else x)

def saveSubs (st : IState) (upds : List (Int × Int)) : IState :=
  upds.foldl (fun acc u => saveSub acc u.1 u.2) st

/-- `for i, m in enumerate(l): m.suborder = f(i); m.save()` as an update list. -/
def enumSubs (l : List Item) (f : Nat → Int) : List (Int × Int) :=
  match l with
  | [] => []
  | y :: ys => (y.id, f 0) :: enumSubs ys (fun i => f (i + 1))

/-- The write sequence of the reorder endpoint (api.py:908-922): park the
moved item at rank 0, renumber `slice1` ascending from 1, renumber `slice2`
(which arrives in descending rank order) downward from the combined length,
give the moved item its final rank `len(slice1) + 1`, then renumber the old
slot's remaining items densely. -/
def movePipeline (st : IState) (model : Item) (orderReq : Int)
    (slice1 slice2 oldSibs : List Item) : IState :=
  let lenCombined : Int :=
    Int.ofNat slice1.length + 1 + Int.ofNat slice2.length
  saveSubs
    (saveOrderSub
      (saveSubs
        (saveSubs (saveOrderSub st model.id orderReq 0)
          (enumSubs slice1 (fun i => Int.ofNat i + 1)))
        (enumSubs slice2 (fun i => lenCombined - Int.ofNat i)))
      model.id orderReq (Int.ofNat slice1.length + 1))
    (enumSubs oldSibs (fun i => Int.ofNat i + 1))

/-- Resolution of the requested rank: the append sentinel -1 becomes one past
the destination slot's last rank (api.py:898-902). -/
def resolveSub (newSiblings : List Item) (subReq : Int) : Int :=
  if subReq == -1 then
    match newSiblings.getLast? with
    | some m => m.suborder + 1
    | none => 1
  else subReq

/-- The `interstitial` reorder endpoint (api.py:866-928). -/
def interstitial_move (st : IState) (itemId orderReq subReq : Int) :
    Except ApiError IState :=
  match st.find? (fun x => x.id == itemId) with
  | none => Except.error .http404
  | some model =>
    if model.eventLocked then Except.error (.permissionDenied "") else
    let newSiblings := sortBySub (st.filter (fun x => x.order == orderReq))
    let suborder := resolveSub newSiblings subReq
    if suborder ≤ 0 then
      Except.error (.valueError "suborder must be positive or -1")
    else
      let sibs :=
        sortBySub (st.filter (fun x => x.order == orderReq && x.id != model.id))
      let slices :=
        if orderReq != model.order then
          (sibs.filter (fun x => x.suborder < suborder),
           (sibs.filter (fun x => suborder ≤ x.suborder)).reverse,
           sortBySub (st.filter (fun x => x.order == model.order && x.id != model.id)))
        else if model.suborder > suborder then
          (sibs.filter (fun x => x.suborder < suborder),
           (sibs.filter (fun x => suborder ≤ x.suborder)).reverse,
           ([] : List Item))
        else
          (sibs.filter (fun x => x.suborder ≤ suborder),
           (sibs.filter (fun x => suborder < x.suborder)).reverse,
           ([] : List Item))
      Except.ok (movePipeline st model orderReq slices.1 slices.2.1 slices.2.2)
/-- The rows of one slot. -/
def slotItems (st : IState) (o : Int) : List Item :=
  st.filter (fun x => x.order == o)

/-- `[1, 2, ..., n]` as integers. -/
def rankRange (n : Nat) : List Int :=
  (List.range n).map (fun i => Int.ofNat i + 1)

/-- Within the slot, ranks are exactly {1, …, N} with N the number of rows in
the slot: no duplicates, no gaps. -/
def denseSlot (st : IState) (o : Int) : Prop :=
  ((slotItems st o).map (fun x => x.suborder)).Perm
    (rankRange (slotItems st o).length)

/-- Every slot is dense. -/
def denseState (st : IState) : Prop := ∀ o, denseSlot st o

/-- Primary keys are unique. -/
def nodupIds (st : IState) : Prop := (st.map (fun x => x.id)).Nodup

/-!
## General lemmas about the embedded dictionaries
-/

theorem find?_filter_of_imp (l : List α) (p q : α → Bool)
    (h : ∀ a, p a = true → q a = true) : (l.filter q).find? p = l.find? p := by
  induction l with
  | nil => rfl
  | cons x xs ih =>
    by_cases hq : q x = true
    · by_cases hp : p x = true
      · simp [List.filter_cons, hq, List.find?_cons, hp]
      · simp [List.filter_cons, hq, List.find?_cons, hp, ih]
    · have hp : p x = false := by
        cases hpx : p x with
        | false => rfl
        | true => exact absurd (h x hpx) hq
      simp [List.filter_cons, hq, List.find?_cons, hp, ih]

namespace Fields

theorem hasKey_eq_isSome (fs : Fields) (k : String) :
    fs.hasKey k = (fs.lookup k).isSome := by
  simp [Fields.hasKey, Fields.lookup]

theorem lookup_eraseKey_self (fs : Fields) (k : String) :
    (fs.eraseKey k).lookup k = none := by
  have : (fs.eraseKey k).find? (fun p => p.1 == k) = none := by
    rw [List.find?_eq_none]
    intro p hp
    have := (List.mem_filter.mp hp).2
    simp only [bne_iff_ne, ne_eq] at this
    simp [this]
  simp [Fields.lookup, this]

theorem lookup_eraseKey_ne (fs : Fields) {k k' : String} (h : k ≠ k') :
    (fs.eraseKey k').lookup k = fs.lookup k := by
  unfold Fields.lookup Fields.eraseKey
  rw [find?_filter_of_imp]
  intro p hp
  simp only [beq_iff_eq] at hp
  simp only [bne_iff_ne, ne_eq, hp, decide_eq_true_eq]
  exact h

theorem hasKey_eraseKey_self (fs : Fields) (k : String) :
    (fs.eraseKey k).hasKey k = false := by
  rw [hasKey_eq_isSome, lookup_eraseKey_self]
  rfl

theorem hasKey_eraseKey_ne (fs : Fields) {k k' : String} (h : k ≠ k') :
    (fs.eraseKey k').hasKey k = fs.hasKey k := by
  rw [hasKey_eq_isSome, hasKey_eq_isSome, lookup_eraseKey_ne fs h]

theorem lookup_set_ne (fs : Fields) {k k' : String} (v : Value) (h : k ≠ k') :
    (fs.set k' v).lookup k = fs.lookup k := by
  have hne : (k' == k) = false := by
    simpa using Ne.symm h
  induction fs with
  | nil => simp [Fields.set, Fields.lookup, List.find?_cons, hne]
  | cons p rest ih =>
    by_cases hp : p.1 = k'
    · have hpk : (p.1 == k) = false := by
        subst hp
        simpa using Ne.symm h
      simp [Fields.set, hp, Fields.lookup, List.find?_cons, hne, hpk]
    · by_cases hk : p.1 = k
      · simp [Fields.set, hp, Fields.lookup, List.find?_cons, hk, h]
      · simpa [Fields.set, hp, Fields.lookup, List.find?_cons, hk] using ih

theorem delKey_eq_some {fs g : Fields} {k : String} (h : fs.delKey k = some g) :
    g = fs.eraseKey k := by
  unfold Fields.delKey at h
  by_cases hk : fs.hasKey k = true
  · simp [hk] at h
    exact h.symm
  · simp [hk] at h

end Fields

/-!
## C1 — the mutation field-allowlist check

`filter_fields` returns a subset of the incoming parameter set, so
`set(good_fields) - set(params.keys())` is empty whatever the incoming
parameters and whatever the write-authorization collaborator answers: the
permission-denied branch of `add`/`edit` is unreachable.
-/

/-- C1: the claim states that a create or edit request carrying a field
outside the writable set fails with a permission-denied error naming the
offending fields.  In the code, `bad_fields = set(good_fields) -
set(params.keys())` subtracts the parameter set from one of its own subsets,
so the check passes for every parameter set and every writable/read-only
configuration: the error can never be raised (the set difference is written
the wrong way round). -/
theorem mutation_field_check_never_fires (params writable readonly : List String) :
    mutation_field_check params writable readonly = .ok () := by
  have hempty : mutation_bad_fields params writable readonly = [] := by
    unfold mutation_bad_fields
    have : (filter_fields params writable readonly).filter
        (fun field => !params.contains field) = [] := by
      rw [List.filter_eq_nil_iff]
      intro a ha
      have hmem : a ∈ params := (List.mem_filter.mp ha).1
      simp [hmem]
    rw [this]
    rfl
  unfold mutation_field_check
  rw [hempty]
  rfl

/-!
## C8 — multi-valued relation coercion error reporting

With a comma-separated key list the requested keys are strings while the
resolved primary keys are integers, so the set difference
`set(pks) - set(m.pk for m in results)` removes nothing: the error reports
every requested key, including the ones that resolved.
-/

/-- C8: the claim states the unresolved-relation error reports exactly the
requested keys that failed to resolve.  Failing input: a multi-valued value
`"1,999"` against a store holding pk 1 only — pk 1 resolves, yet the error
reports both `'1'` and `'999'`. -/
theorem parse_value_m2m_reports_resolved_keys :
    parse_value ⟨some ⟨[1], [], false, "tracker.add_runner", 2⟩, true⟩
        "runners" "1,999" [] =
      .error (.badPks [.jstr "1", .jstr "999"]) := by
  rfl

/-!
## C9 — single-valued natural-key coercion
-/

theorem nkLookup_append_self (nks : List (List JScalar × Int))
    (key : List JScalar) (pk : Int) (h : nkLookup nks key = none) :
    nkLookup (nks ++ [(key, pk)]) key = some pk := by
  induction nks with
  | nil => simp [nkLookup]
  | cons p rest ih =>
    unfold nkLookup at *
    by_cases hp : (p.1 == key) = true
    · simp [List.find?_cons, hp] at h
    · simp only [List.cons_append, List.find?_cons, hp] at *
      exact ih h

/-- C9: for a single-valued relation whose token is not a valid primary key
and parses to a natural key with no matching instance, the coercion fails
with a not-found error when the caller lacks the create capability; when the
caller holds it (and the related manager offers get-or-create by natural
key, as the spec's natural-key kinds do), the instance is fetched by natural
key or freshly created, and the coercion succeeds with the field set to that
instance. -/
theorem parse_value_natural_key_fallback
    (rm : RelatedModelState) (field value : String) (perms : List String)
    (key : List JScalar)
    (hnone : value ≠ "None") (hne : value ≠ "")
    (hpk : pyInt? value = none)
    (hkey : natural_key_of field value = .ok key) :
    (nkLookup rm.nks key = none → perms.contains rm.addPerm = false →
      parse_value ⟨some rm, false⟩ field value perms =
        .error (.doesNotExist "matching natural key does not exist"))
    ∧ (perms.contains rm.addPerm = true → rm.hasGetOrCreate = true →
      parse_value ⟨some rm, false⟩ field value perms =
        match nkLookup rm.nks key with
        | some pk0 => .ok (.one pk0, some rm)
        | none => .ok (.one rm.nextPk, some { rm with
            pks := rm.pks ++ [rm.nextPk]
            nks := rm.nks ++ [(key, rm.nextPk)]
            nextPk := rm.nextPk + 1 })) := by
  have hbase : parse_value ⟨some rm, false⟩ field value perms =
      (if rm.hasGetOrCreate && perms.contains rm.addPerm then
        match nkLookup rm.nks key with
        | some pk0 => .ok (.one pk0, some rm)
        | none => .ok (.one rm.nextPk, some { rm with
            pks := rm.pks ++ [rm.nextPk]
            nks := rm.nks ++ [(key, rm.nextPk)]
            nextPk := rm.nextPk + 1 })
      else
        match nkLookup rm.nks key with
        | some pk0 => .ok (.one pk0, some rm)
        | none => .error (.doesNotExist "matching natural key does not exist")) := by
    unfold parse_value
    rw [if_neg hnone]
    simp only [hpk]
    simp [hne, hkey, Bind.bind, Except.bind]
  constructor
  · intro hmiss hperm
    rw [hbase, hmiss, hperm]
    simp
  · intro hperm hgoc
    rw [hbase, hperm, hgoc]
    simp

/-- Concrete instantiation of the C9 theorem: token `"PB"` against an empty
related table, without and with the create capability. -/
theorem parse_value_natural_key_fallback_witness :
    (parse_value ⟨some ⟨[], [], true, "tracker.add_runner", 1⟩, false⟩
        "runner" "PB" [] =
      .error (.doesNotExist "matching natural key does not exist"))
    ∧ (parse_value ⟨some ⟨[], [], true, "tracker.add_runner", 1⟩, false⟩
        "runner" "PB" ["tracker.add_runner"] =
      .ok (.one 1, some ⟨[1], [([.jstr "PB"], 1)], true, "tracker.add_runner", 2⟩)) := by
  constructor
  · exact (parse_value_natural_key_fallback ⟨[], [], true, "tracker.add_runner", 1⟩
      "runner" "PB" [] [.jstr "PB"] (by decide) (by decide) rfl rfl).1 rfl rfl
  · exact (parse_value_natural_key_fallback ⟨[], [], true, "tracker.add_runner", 1⟩
      "runner" "PB" ["tracker.add_runner"] [.jstr "PB"] (by decide) (by decide) rfl rfl).2 rfl rfl

/-!
## Lemmas about the privacy filters
-/

namespace Fields

theorem lookup_set_self (fs : Fields) (k : String) (v : Value) :
    (fs.set k v).lookup k = some v := by
  induction fs with
  | nil => simp [Fields.set, Fields.lookup, List.find?_cons]
  | cons p rest ih =>
    by_cases hp : p.1 = k
    · simp [Fields.set, hp, Fields.lookup, List.find?_cons]
    · simpa [Fields.set, hp, Fields.lookup, List.find?_cons] using ih

theorem hasKey_set_self (fs : Fields) (k : String) (v : Value) :
    (fs.set k v).hasKey k = true := by
  rw [hasKey_eq_isSome, lookup_set_self]
  rfl

theorem hasKey_set_ne (fs : Fields) {k k' : String} (v : Value) (h : k ≠ k') :
    (fs.set k' v).hasKey k = fs.hasKey k := by
  rw [hasKey_eq_isSome, hasKey_eq_isSome, lookup_set_ne fs v h]

end Fields

theorem donor_stage_first_untouched {v : Value} {f f1 : Fields}
    (h : donor_stage_first v f = some f1) {k : String} (h1 : k ≠ "lastname") :
    f1.lookup k = f.lookup k := by
  unfold donor_stage_first at h
  by_cases hc : (v == Value.str "FIRST") = true
  · rw [if_pos hc] at h
    simp only [bind, Option.bind_eq_some, Option.pure_def, Option.some.injEq] at h
    obtain ⟨ln, hln, h⟩ := h
    by_cases ht : ln.truthy = true
    · rw [if_pos ht] at h
      simp only [bind, Option.bind_eq_some, Option.pure_def, Option.some.injEq] at h
      obtain ⟨ln', hln', h⟩ := h
      rw [← h]
      exact Fields.lookup_set_ne f ln' h1
    · rw [if_neg ht] at h
      simp only [Option.pure_def, Option.some.injEq] at h
      rw [← h]
  · rw [if_neg hc] at h
    simp only [Option.pure_def, Option.some.injEq] at h
    rw [← h]

theorem donor_stage_names_untouched {v : Value} {f f2 : Fields}
    (h : donor_stage_names v f = some f2) {k : String}
    (h1 : k ≠ "lastname") (h2 : k ≠ "firstname") :
    f2.lookup k = f.lookup k := by
  unfold donor_stage_names at h
  by_cases hc : (v == Value.str "ALIAS" || v == Value.str "ANON") = true
  · rw [if_pos hc] at h
    simp only [bind, Option.bind_eq_some] at h
    obtain ⟨fa, hfa, h⟩ := h
    rw [Fields.delKey_eq_some h, Fields.delKey_eq_some hfa,
      Fields.lookup_eraseKey_ne _ h2, Fields.lookup_eraseKey_ne _ h1]
  · rw [if_neg hc] at h
    simp only [Option.pure_def, Option.some.injEq] at h
    rw [← h]

theorem donor_stage_anon_untouched {v : Value} {f g : Fields}
    (h : donor_stage_anon v f = some g) {k : String}
    (h3 : k ≠ "alias") (h4 : k ≠ "alias_num") (h5 : k ≠ "canonical_url") :
    g.lookup k = f.lookup k := by
  unfold donor_stage_anon at h
  by_cases hc : (v == Value.str "ANON") = true
  · rw [if_pos hc] at h
    simp only [bind, Option.bind_eq_some] at h
    obtain ⟨fa, hfa, fb, hfb, h⟩ := h
    rw [Fields.delKey_eq_some h, Fields.delKey_eq_some hfb, Fields.delKey_eq_some hfa,
      Fields.lookup_eraseKey_ne _ h5, Fields.lookup_eraseKey_ne _ h4,
      Fields.lookup_eraseKey_ne _ h3]
  · rw [if_neg hc] at h
    simp only [Option.pure_def, Option.some.injEq] at h
    rw [← h]

/-- The donor filter changes nothing outside the five name/identity keys. -/
theorem donor_filter_untouched {f g : Fields} (h : donor_privacy_filter f = some g)
    {k : String}
    (h1 : k ≠ "lastname") (h2 : k ≠ "firstname") (h3 : k ≠ "alias")
    (h4 : k ≠ "alias_num") (h5 : k ≠ "canonical_url") :
    g.lookup k = f.lookup k := by
  unfold donor_privacy_filter at h
  simp only [bind, Option.bind_eq_some] at h
  obtain ⟨v, hv, f1, hf1, f2, hf2, hg⟩ := h
  rw [donor_stage_anon_untouched hg h3 h4 h5,
    donor_stage_names_untouched hf2 h1 h2,
    donor_stage_first_untouched hf1 h1]

/-- On a record whose visibility is `ANON`, the donor filter is exactly the
erasure of the five name/identity keys. -/
theorem donor_filter_anon_eq {f g : Fields} (h : donor_privacy_filter f = some g)
    (hv : f.lookup "visibility" = some (.str "ANON")) :
    g = ((((f.eraseKey "lastname").eraseKey "firstname").eraseKey
        "alias").eraseKey "alias_num").eraseKey "canonical_url" := by
  unfold donor_privacy_filter at h
  rw [hv] at h
  simp only [bind, Option.bind_eq_some, Option.some.injEq] at h
  obtain ⟨v, hveq, f1, hf1, f2, hf2, hg⟩ := h
  rw [← hveq] at hf1 hf2 hg
  have e1 : f1 = f := by
    have hskip : donor_stage_first (Value.str "ANON") f = some f := rfl
    rw [hskip] at hf1
    exact (Option.some.injEq _ _).mp hf1.symm
  rw [e1] at hf2
  have e2 : f2 = (f.eraseKey "lastname").eraseKey "firstname" := by
    unfold donor_stage_names at hf2
    have hc : (Value.str "ANON" == Value.str "ALIAS"
        || Value.str "ANON" == Value.str "ANON") = true := rfl
    rw [if_pos hc] at hf2
    simp only [bind, Option.bind_eq_some] at hf2
    obtain ⟨fa, hfa, hf2⟩ := hf2
    rw [Fields.delKey_eq_some hf2, Fields.delKey_eq_some hfa]
  rw [e2] at hg
  unfold donor_stage_anon at hg
  have hc : (Value.str "ANON" == Value.str "ANON") = true := rfl
  rw [if_pos hc] at hg
  simp only [bind, Option.bind_eq_some] at hg
  obtain ⟨fa, hfa, fb, hfb, hg⟩ := hg
  rw [Fields.delKey_eq_some hg, Fields.delKey_eq_some hfb, Fields.delKey_eq_some hfa]

/-- After the donor filter, a record whose (preserved) visibility reads
`ANON` carries none of the five name/identity keys. -/
theorem donor_filter_cases {f g : Fields} (h : donor_privacy_filter f = some g)
    (hv : g.lookup "visibility" = some (.str "ANON")) :
    g.hasKey "alias" = false ∧ g.hasKey "alias_num" = false ∧
    g.hasKey "firstname" = false ∧ g.hasKey "lastname" = false ∧
    g.hasKey "canonical_url" = false := by
  have hfv : f.lookup "visibility" = some (.str "ANON") := by
    rw [← donor_filter_untouched h (by decide) (by decide) (by decide) (by decide)
      (by decide)]
    exact hv
  rw [donor_filter_anon_eq h hfv]
  refine ⟨?_, ?_, ?_, ?_, ?_⟩
  · rw [Fields.hasKey_eraseKey_ne _ (by decide), Fields.hasKey_eraseKey_ne _ (by decide),
      Fields.hasKey_eraseKey_self]
  · rw [Fields.hasKey_eraseKey_ne _ (by decide), Fields.hasKey_eraseKey_self]
  · rw [Fields.hasKey_eraseKey_ne _ (by decide), Fields.hasKey_eraseKey_ne _ (by decide),
      Fields.hasKey_eraseKey_ne _ (by decide), Fields.hasKey_eraseKey_self]
  · rw [Fields.hasKey_eraseKey_ne _ (by decide), Fields.hasKey_eraseKey_ne _ (by decide),
      Fields.hasKey_eraseKey_ne _ (by decide), Fields.hasKey_eraseKey_ne _ (by decide),
      Fields.hasKey_eraseKey_self]
  · rw [Fields.hasKey_eraseKey_self]

theorem donation_stage_comment_untouched {cs : Value} {f f1 : Fields}
    (h : donation_stage_comment cs f = some f1) {k : String}
    (h1 : k ≠ "comment") (h2 : k ≠ "commentlanguage") :
    f1.lookup k = f.lookup k := by
  unfold donation_stage_comment at h
  by_cases hc : (cs != Value.str "APPROVED") = true
  · rw [if_pos hc] at h
    simp only [bind, Option.bind_eq_some] at h
    obtain ⟨fa, hfa, h⟩ := h
    rw [Fields.delKey_eq_some h, Fields.delKey_eq_some hfa,
      Fields.lookup_eraseKey_ne _ h2, Fields.lookup_eraseKey_ne _ h1]
  · rw [if_neg hc] at h
    simp only [Option.pure_def, Option.some.injEq] at h
    rw [← h]

theorem donation_stage_anon_eq {f g : Fields}
    (h : donation_stage_anon f = some g)
    (hv : f.lookup "donor__visibility" = some (.str "ANON")) :
    g = ((((f.eraseKey "donor").eraseKey "donor__alias").eraseKey
        "donor__alias_num").eraseKey "donor__visibility").eraseKey
        "donor__canonical_url" := by
  unfold donation_stage_anon at h
  rw [hv] at h
  simp only [bind, Option.bind_eq_some, Option.some.injEq] at h
  obtain ⟨v, hveq, h⟩ := h
  rw [← hveq] at h
  have hc : (Value.str "ANON" == Value.str "ANON") = true := rfl
  rw [if_pos hc] at h
  simp only [bind, Option.bind_eq_some] at h
  obtain ⟨fa, hfa, fb, hfb, fc, hfc, fd, hfd, h⟩ := h
  rw [Fields.delKey_eq_some h, Fields.delKey_eq_some hfd, Fields.delKey_eq_some hfc,
    Fields.delKey_eq_some hfb, Fields.delKey_eq_some hfa]

theorem donation_stage_anon_not_anon {f g : Fields} {v : Value}
    (h : donation_stage_anon f = some g)
    (hv : f.lookup "donor__visibility" = some v)
    (hne : (v == Value.str "ANON") = false) : g = f := by
  unfold donation_stage_anon at h
  rw [hv] at h
  simp only [bind, Option.bind_eq_some, Option.some.injEq] at h
  obtain ⟨w, hweq, h⟩ := h
  rw [← hweq, hne] at h
  simp only [Bool.false_eq_true, if_false, Option.pure_def, Option.some.injEq] at h
  exact h.symm

/-- After the donation filter, a record from which the flattened donor
visibility is gone (the `ANON` mark) carries no donor key, no flattened
donor alias/alias-number, and no flattened donor canonical identifier. -/
theorem donation_filter_cases {f g : Fields}
    (h : donation_privacy_filter f = some g)
    (hv : g.hasKey "donor__visibility" = false) :
    g.hasKey "donor" = false ∧ g.hasKey "donor__alias" = false ∧
    g.hasKey "donor__alias_num" = false ∧
    g.hasKey "donor__canonical_url" = false := by
  unfold donation_privacy_filter at h
  simp only [bind, Option.bind_eq_some] at h
  obtain ⟨cs, hcs, f1, hf1, hg⟩ := h
  have hdv : ∃ v, f1.lookup "donor__visibility" = some v := by
    unfold donation_stage_anon at hg
    cases hl : f1.lookup "donor__visibility" with
    | none => rw [hl] at hg; simp [bind, Option.bind] at hg
    | some v => exact ⟨v, rfl⟩
  obtain ⟨v, hv1⟩ := hdv
  by_cases hanon : (v == Value.str "ANON") = true
  · have hveq : f1.lookup "donor__visibility" = some (.str "ANON") := by
      rw [hv1]
      simp only [beq_iff_eq] at hanon
      rw [hanon]
    rw [donation_stage_anon_eq hg hveq]
    refine ⟨?_, ?_, ?_, ?_⟩
    · rw [Fields.hasKey_eraseKey_ne _ (by decide), Fields.hasKey_eraseKey_ne _ (by decide),
        Fields.hasKey_eraseKey_ne _ (by decide), Fields.hasKey_eraseKey_ne _ (by decide),
        Fields.hasKey_eraseKey_self]
    · rw [Fields.hasKey_eraseKey_ne _ (by decide), Fields.hasKey_eraseKey_ne _ (by decide),
        Fields.hasKey_eraseKey_ne _ (by decide), Fields.hasKey_eraseKey_self]
    · rw [Fields.hasKey_eraseKey_ne _ (by decide), Fields.hasKey_eraseKey_ne _ (by decide),
        Fields.hasKey_eraseKey_self]
    · rw [Fields.hasKey_eraseKey_self]
  · have hgf : g = f1 := donation_stage_anon_not_anon hg hv1 (by
      cases hb : (v == Value.str "ANON") with
      | false => rfl
      | true => exact absurd hb hanon)
    rw [hgf, Fields.hasKey_eq_isSome, hv1] at hv
    simp at hv

/-- The run filter is exactly the erasure of the two internal-notes keys. -/
theorem run_filter_eq {f g : Fields} (h : run_privacy_filter f = some g) :
    g = (f.eraseKey "tech_notes").eraseKey "layout" := by
  unfold run_privacy_filter at h
  simp only [bind, Option.bind_eq_some] at h
  obtain ⟨f1, hf1, hg⟩ := h
  rw [Fields.delKey_eq_some hg, Fields.delKey_eq_some hf1]

theorem run_filter_absent {f g : Fields} (h : run_privacy_filter f = some g) :
    g.hasKey "tech_notes" = false ∧ g.hasKey "layout" = false := by
  rw [run_filter_eq h]
  constructor
  · rw [Fields.hasKey_eraseKey_ne _ (by decide), Fields.hasKey_eraseKey_self]
  · rw [Fields.hasKey_eraseKey_self]

/-!
## Plumbing lemmas for the search pipeline
-/

theorem except_bind_ok {e : Except ε α} {f : α → Except ε β} {b : β}
    (h : (e >>= f) = .ok b) : ∃ a, e = .ok a ∧ f a = .ok b := by
  cases e with
  | error err => simp [Bind.bind, Except.bind] at h
  | ok a => exact ⟨a, rfl, by simpa [Bind.bind, Except.bind] using h⟩

theorem exceptMapM_mem {f : α → Except ε β} {l : List α} {out : List β}
    (h : exceptMapM f l = .ok out) {r : β} (hr : r ∈ out) :
    ∃ x ∈ l, f x = .ok r := by
  induction l generalizing out with
  | nil =>
    unfold exceptMapM at h
    cases h
    simp at hr
  | cons x xs ih =>
    unfold exceptMapM at h
    obtain ⟨y, hy, h⟩ := except_bind_ok h
    obtain ⟨ys, hys, h⟩ := except_bind_ok h
    cases h
    rcases List.mem_cons.mp hr with rfl | hmem
    · exact ⟨x, List.mem_cons_self _ _, hy⟩
    · obtain ⟨z, hz, hfz⟩ := ih hys hmem
      exact ⟨z, List.mem_cons_of_mem _ hz, hfz⟩

theorem runSearch_ok_inv {env : SearchEnv} {u : User} {params : QueryDict}
    {out : SearchOutcome} (h : runSearch env u params = .ok out) :
    ∃ q, parseSearch params u env.ceiling = .ok q ∧
      searchRecords env q = .ok out.result ∧
      out.body = (if q.queries then .queryLog else .data out.result) := by
  unfold runSearch at h
  obtain ⟨q, hq, h⟩ := except_bind_ok h
  obtain ⟨records, hrec, h⟩ := except_bind_ok h
  simp only [pure, Except.pure, Except.ok.injEq] at h
  refine ⟨q, hq, ?_, ?_⟩
  · rw [← h]
    exact hrec
  · rw [← h]

theorem processInstance_ok_inv {ty : String} {dn ac tn : Bool} {inst : Instance}
    {r : Fields} (h : processInstance ty dn ac tn inst = .ok r) :
    ∃ f, enrichInstance ty inst = .ok f ∧ applyPrivacy ty dn ac tn f = some r := by
  unfold processInstance at h
  obtain ⟨f, hf, h⟩ := except_bind_ok h
  refine ⟨f, hf, ?_⟩
  cases hap : applyPrivacy ty dn ac tn f with
  | none => rw [hap] at h; simp at h
  | some g =>
    rw [hap] at h
    simp only [Except.ok.injEq] at h
    rw [h]

theorem pageOf_subset {rows : List Instance} {offset limit : Int} {x : Instance}
    (hx : x ∈ pageOf rows offset limit) : x ∈ rows :=
  List.mem_of_mem_drop (List.mem_of_mem_take hx)

theorem searchRecords_mem {env : SearchEnv} {q : SearchQuery} {records : List Fields}
    (h : searchRecords env q = .ok records) {r : Fields} (hr : r ∈ records) :
    ∃ inst ∈ env.rows,
      processInstance q.ty q.donorNames q.allComments q.techNotes inst = .ok r := by
  unfold searchRecords at h
  by_cases hoff : q.offset < 0
  · rw [if_pos hoff] at h
    simp at h
  · rw [if_neg hoff] at h
    obtain ⟨inst, hmem, hproc⟩ := exceptMapM_mem h hr
    exact ⟨inst, pageOf_subset hmem, hproc⟩

theorem qdLookup_qdErase_self (qd : QueryDict) (k : String) :
    qdLookup (qdErase qd k) k = none := by
  have : (qdErase qd k).find? (fun p => p.1 == k) = none := by
    rw [List.find?_eq_none]
    intro p hp
    have := (List.mem_filter.mp hp).2
    simp only [bne_iff_ne, ne_eq] at this
    simp [this]
  simp [qdLookup, this]

theorem qdLookup_qdErase_ne (qd : QueryDict) {k k' : String} (h : k ≠ k') :
    qdLookup (qdErase qd k') k = qdLookup qd k := by
  unfold qdLookup qdErase
  rw [find?_filter_of_imp]
  intro p hp
  simp only [beq_iff_eq] at hp
  simp only [bne_iff_ne, ne_eq, hp, decide_eq_true_eq]
  exact h

theorem single_ok_inv {qd : QueryDict} {key v : String} {rest : QueryDict}
    (h : single qd key = .ok (v, rest)) :
    qdLookup qd key = some [v] ∧ rest = qdErase qd key := by
  unfold single at h
  cases hl : qdLookup qd key with
  | none => rw [hl] at h; simp at h
  | some vs =>
    rw [hl] at h
    match vs with
    | [] => simp at h
    | [w] =>
      simp only [Except.ok.injEq, Prod.mk.injEq] at h
      exact ⟨by rw [h.1], h.2.symm⟩
    | w :: x :: xs => simp at h

theorem singleOpt_ok_inv {qd : QueryDict} {key : String} {v : Option String}
    {rest : QueryDict} (h : singleOpt qd key = .ok (v, rest)) :
    (v = none ∧ rest = qd ∧ qdLookup qd key = none) ∨
    (∃ w, v = some w ∧ qdLookup qd key = some [w] ∧ rest = qdErase qd key) := by
  unfold singleOpt at h
  cases hl : qdLookup qd key with
  | none =>
    rw [hl] at h
    simp only [Except.ok.injEq, Prod.mk.injEq] at h
    exact Or.inl ⟨h.1.symm, h.2.symm, rfl⟩
  | some vs =>
    rw [hl] at h
    match vs with
    | [] => simp at h
    | [w] =>
      simp only [Except.ok.injEq, Prod.mk.injEq] at h
      exact Or.inr ⟨w, h.1.symm, rfl, h.2.symm⟩
    | w :: x :: xs => simp at h

theorem present_ok_inv {qd : QueryDict} {key : String} {b : Bool} {rest : QueryDict}
    (h : present qd key = .ok (b, rest)) :
    (b = false ∧ rest = qd ∧ qdLookup qd key = none) ∨
    (b = true ∧ qdLookup qd key = some [""] ∧ rest = qdErase qd key) := by
  unfold present at h
  cases hl : qdLookup qd key with
  | none =>
    rw [hl] at h
    simp only [Except.ok.injEq, Prod.mk.injEq] at h
    exact Or.inl ⟨h.1.symm, h.2.symm, rfl⟩
  | some vs =>
    rw [hl] at h
    match vs with
    | [] => simp at h
    | [w] =>
      have h' : (if (w != "") = true then
          (Except.error (ApiError.valueError (key ++ " parameter does not take a value"))
            : Except ApiError (Bool × QueryDict))
        else Except.ok (true, qdErase qd key)) = Except.ok (b, rest) := h
      by_cases hw : (w != "") = true
      · rw [if_pos hw] at h'
        simp at h'
      · rw [if_neg hw] at h'
        simp only [Except.ok.injEq, Prod.mk.injEq] at h'
        simp only [bne_iff_ne, ne_eq, not_not] at hw
        exact Or.inr ⟨h'.1.symm, by rw [hw], h'.2.symm⟩
    | w :: x :: xs => simp at h

theorem check_ok_inv {c : Bool} {e : ApiError} {x : Unit}
    (h : check c e = .ok x) : c = false := by
  cases hc : c with
  | false => rfl
  | true => rw [hc] at h; simp [check] at h

theorem intParamOr_ok_inv {v : Option String} {dflt n : Int}
    (h : intParamOr v dflt = .ok n) :
    (v = none ∧ n = dflt) ∨ (∃ s, v = some s ∧ pyInt? s = some n) := by
  match v with
  | none =>
    simp only [intParamOr, Except.ok.injEq] at h
    exact Or.inl ⟨rfl, h.symm⟩
  | some s =>
    simp only [intParamOr] at h
    cases hp : pyInt? s with
    | none => rw [hp] at h; simp at h
    | some m =>
      rw [hp] at h
      simp only [Except.ok.injEq] at h
      exact Or.inr ⟨s, rfl, by rw [hp, h]⟩

theorem single_rest_lookup {qd : QueryDict} {key v : String} {rest : QueryDict}
    (h : single qd key = .ok (v, rest)) {k : String} (hk : k ≠ key) :
    qdLookup rest k = qdLookup qd k := by
  rw [(single_ok_inv h).2]
  exact qdLookup_qdErase_ne qd hk

theorem present_rest_lookup {qd : QueryDict} {key : String} {b : Bool}
    {rest : QueryDict} (h : present qd key = .ok (b, rest)) {k : String}
    (hk : k ≠ key) : qdLookup rest k = qdLookup qd k := by
  rcases present_ok_inv h with ⟨_, hr, _⟩ | ⟨_, _, hr⟩
  · rw [hr]
  · rw [hr]
    exact qdLookup_qdErase_ne qd hk

theorem singleOpt_rest_lookup {qd : QueryDict} {key : String} {v : Option String}
    {rest : QueryDict} (h : singleOpt qd key = .ok (v, rest)) {k : String}
    (hk : k ≠ key) : qdLookup rest k = qdLookup qd k := by
  rcases singleOpt_ok_inv h with ⟨_, hr, _⟩ | ⟨w, _, _, hr⟩
  · rw [hr]
  · rw [hr]
    exact qdLookup_qdErase_ne qd hk

/-- Everything a successful parameter parse pins down, phrased against the
original request mapping. -/
theorem parseSearch_ok_inv {params : QueryDict} {u : User} {ceiling : Int}
    {q : SearchQuery} (h : parseSearch params u ceiling = .ok q) :
    qdLookup params "type" = some [q.ty]
    ∧ modelNames.contains q.ty = true
    ∧ (q.queries = true →
        qdLookup params "queries" = some [""]
        ∧ u.has_perm "tracker.view_queries" = true)
    ∧ (qdLookup params "donor_names" = none → q.donorNames = false)
    ∧ (q.donorNames = true → q.ty = "donor")
    ∧ (qdLookup params "all_comments" = none → q.allComments = false)
    ∧ (q.allComments = true → q.ty = "donation")
    ∧ (qdLookup params "tech_notes" = none → q.techNotes = false)
    ∧ (q.techNotes = true → q.ty = "run")
    ∧ (qdLookup params "offset" = none → q.offset = 0)
    ∧ (qdLookup params "limit" = none → q.limit = ceiling ∧ 1 ≤ ceiling)
    ∧ (∀ s, qdLookup params "limit" = some [s] →
        ∃ n, pyInt? s = some n ∧ n ≤ ceiling ∧ 1 ≤ n ∧ q.limit = min ceiling n) := by
  unfold parseSearch at h
  obtain ⟨⟨ty0, p1⟩, h1, h⟩ := except_bind_ok h
  obtain ⟨⟨qs0, p2⟩, h2, h⟩ := except_bind_ok h
  obtain ⟨⟨dn0, p3⟩, h3, h⟩ := except_bind_ok h
  obtain ⟨⟨ac0, p4⟩, h4, h⟩ := except_bind_ok h
  obtain ⟨⟨tn0, p5⟩, h5, h⟩ := except_bind_ok h
  obtain ⟨_, hc1, h⟩ := except_bind_ok h
  obtain ⟨_, hc2, h⟩ := except_bind_ok h
  obtain ⟨_, hc3, h⟩ := except_bind_ok h
  obtain ⟨_, hc4, h⟩ := except_bind_ok h
  obtain ⟨_, hc5, h⟩ := except_bind_ok h
  obtain ⟨_, hc6, h⟩ := except_bind_ok h
  obtain ⟨_, hc7, h⟩ := except_bind_ok h
  obtain ⟨_, hc8, h⟩ := except_bind_ok h
  obtain ⟨⟨offS, p6⟩, h6, h⟩ := except_bind_ok h
  obtain ⟨offset0, hoff, h⟩ := except_bind_ok h
  obtain ⟨⟨limS, p7⟩, h7, h⟩ := except_bind_ok h
  obtain ⟨limit0, hlim, h⟩ := except_bind_ok h
  obtain ⟨_, hc9, h⟩ := except_bind_ok h
  obtain ⟨_, hc10, h⟩ := except_bind_ok h
  simp only [pure, Except.pure, Except.ok.injEq] at h
  -- project the final record
  have hty : q.ty = ty0 := by rw [← h]
  have hqs : q.queries = qs0 := by rw [← h]
  have hdn : q.donorNames = dn0 := by rw [← h]
  have hac : q.allComments = ac0 := by rw [← h]
  have htn : q.techNotes = tn0 := by rw [← h]
  have hoffq : q.offset = offset0 := by rw [← h]
  have hlimq : q.limit = min ceiling limit0 := by rw [← h]
  -- lookups transferred to the original mapping
  have tqueries : qdLookup p1 "queries" = qdLookup params "queries" :=
    single_rest_lookup h1 (by decide)
  have tdn : qdLookup p2 "donor_names" = qdLookup params "donor_names" := by
    rw [present_rest_lookup h2 (by decide), single_rest_lookup h1 (by decide)]
  have tac : qdLookup p3 "all_comments" = qdLookup params "all_comments" := by
    rw [present_rest_lookup h3 (by decide), present_rest_lookup h2 (by decide),
      single_rest_lookup h1 (by decide)]
  have ttn : qdLookup p4 "tech_notes" = qdLookup params "tech_notes" := by
    rw [present_rest_lookup h4 (by decide), present_rest_lookup h3 (by decide),
      present_rest_lookup h2 (by decide), single_rest_lookup h1 (by decide)]
  have toff : qdLookup p5 "offset" = qdLookup params "offset" := by
    rw [present_rest_lookup h5 (by decide), present_rest_lookup h4 (by decide),
      present_rest_lookup h3 (by decide), present_rest_lookup h2 (by decide),
      single_rest_lookup h1 (by decide)]
  have tlim : qdLookup p6 "limit" = qdLookup params "limit" := by
    rw [singleOpt_rest_lookup h6 (by decide), present_rest_lookup h5 (by decide),
      present_rest_lookup h4 (by decide), present_rest_lookup h3 (by decide),
      present_rest_lookup h2 (by decide), single_rest_lookup h1 (by decide)]
  refine ⟨?_, ?_, ?_, ?_, ?_, ?_, ?_, ?_, ?_, ?_, ?_, ?_⟩
  · rw [hty]
    exact (single_ok_inv h1).1
  · have := check_ok_inv hc1
    rw [hty]
    simpa using this
  · intro hq
    rw [hqs] at hq
    constructor
    · rcases present_ok_inv h2 with ⟨hb, _, _⟩ | ⟨_, hl, _⟩
      · rw [hq] at hb; cases hb
      · rw [← tqueries]; exact hl
    · have := check_ok_inv hc2
      rw [hq] at this
      simp only [Bool.true_and, Bool.not_eq_false'] at this
      exact this
  · intro hnone
    rw [hdn]
    rcases present_ok_inv h3 with ⟨hb, _, _⟩ | ⟨_, hl, _⟩
    · exact hb
    · rw [tdn, hnone] at hl; cases hl
  · intro hdnt
    rw [hdn] at hdnt
    have := check_ok_inv hc3
    rw [hdnt] at this
    simp only [Bool.true_and, bne_eq_false_iff_eq] at this
    rw [hty, this]
  · intro hnone
    rw [hac]
    rcases present_ok_inv h4 with ⟨hb, _, _⟩ | ⟨_, hl, _⟩
    · exact hb
    · rw [tac, hnone] at hl; cases hl
  · intro hact
    rw [hac] at hact
    have := check_ok_inv hc5
    rw [hact] at this
    simp only [Bool.true_and, bne_eq_false_iff_eq] at this
    rw [hty, this]
  · intro hnone
    rw [htn]
    rcases present_ok_inv h5 with ⟨hb, _, _⟩ | ⟨_, hl, _⟩
    · exact hb
    · rw [ttn, hnone] at hl; cases hl
  · intro htnt
    rw [htn] at htnt
    have := check_ok_inv hc7
    rw [htnt] at this
    simp only [Bool.true_and, bne_eq_false_iff_eq] at this
    rw [hty, this]
  · intro hnone
    rw [hoffq]
    rcases intParamOr_ok_inv hoff with ⟨_, hv⟩ | ⟨s, hs, _⟩
    · exact hv
    · rcases singleOpt_ok_inv h6 with ⟨hvn, _, _⟩ | ⟨w, hvw, hl, _⟩
      · rw [hvn] at hs; cases hs
      · rw [toff, hnone] at hl; cases hl
  · intro hnone
    have hle : ¬(limit0 > ceiling) := by
      have := check_ok_inv hc9
      simpa [decide_eq_false_iff_not] using this
    have hge : ¬(limit0 < 1) := by
      have := check_ok_inv hc10
      simpa [decide_eq_false_iff_not] using this
    rcases intParamOr_ok_inv hlim with ⟨_, hv⟩ | ⟨s, hs, _⟩
    · subst hv
      constructor
      · rw [hlimq, min_self]
      · omega
    · rcases singleOpt_ok_inv h7 with ⟨hvn, _, _⟩ | ⟨w, hvw, hl, _⟩
      · rw [hvn] at hs; cases hs
      · have : qdLookup p6 "limit" = some [w] := hl
        rw [tlim, hnone] at this
        cases this
  · intro s hl
    have hle : ¬(limit0 > ceiling) := by
      have := check_ok_inv hc9
      simpa [decide_eq_false_iff_not] using this
    have hge : ¬(limit0 < 1) := by
      have := check_ok_inv hc10
      simpa [decide_eq_false_iff_not] using this
    rcases intParamOr_ok_inv hlim with ⟨hvn, _⟩ | ⟨s', hs', hp⟩
    · rcases singleOpt_ok_inv h7 with ⟨_, _, hln⟩ | ⟨w, hvw, hlw, _⟩
      · rw [tlim, hl] at hln; cases hln
      · rw [hvn] at hvw; cases hvw
    · rcases singleOpt_ok_inv h7 with ⟨hvn, _, _⟩ | ⟨w, hvw, hlw, _⟩
      · rw [hvn] at hs'; cases hs'
      · rw [hs'] at hvw
        have hws : w = s := by
          rw [tlim, hl] at hlw
          cases hlw
          rfl
        cases hvw
        rw [hws] at hp
        exact ⟨limit0, hp, by omega, by omega, hlimq⟩

/-!
## C4 — internal-notes redaction on run searches
-/

/-- C4 (amended): on every run search made without the `tech_notes` unlock
flag, the internal-notes-style fields (`tech_notes`, `layout`) are absent
from every record of the response.  (With the flag and the matching
capability they are returned — see the counterexample.) -/
theorem run_search_redacts_internal_notes {env : SearchEnv} {u : User}
    {params : QueryDict} {out : SearchOutcome} {r : Fields}
    (h : runSearch env u params = .ok out)
    (hty : qdLookup params "type" = some ["run"])
    (htn : qdLookup params "tech_notes" = none)
    (hr : r ∈ out.result) :
    r.hasKey "tech_notes" = false ∧ r.hasKey "layout" = false := by
  obtain ⟨q, hq, hrec, _⟩ := runSearch_ok_inv h
  obtain ⟨ityp, _, _, _, _, _, _, itnN, _, _, _, _⟩ := parseSearch_ok_inv hq
  have hqty : q.ty = "run" := by
    rw [hty] at ityp
    exact (List.cons.injEq _ _ _ _).mp ((Option.some.injEq _ _).mp ityp.symm) |>.1
  obtain ⟨inst, hmem, hproc⟩ := searchRecords_mem hrec hr
  obtain ⟨f, hf, hap⟩ := processInstance_ok_inv hproc
  rw [hqty, itnN htn] at hap
  have hap' : run_privacy_filter f = some r := hap
  exact run_filter_absent hap'

/-- Fixture: a run row carrying internal notes, with its prefetched relation
key sets. -/
def c4inst : Instance :=
  { pk := 3
    fields := [("name", .str "Game"), ("tech_notes", .str "secret"),
               ("layout", .str "4:3")]
    visibleName := none
    strRepr := "Game"
    annots := []
    prefetched := [("runners", [1, 2]), ("hosts", []), ("commentators", [])]
    rels := [] }

def c4env : SearchEnv := ⟨[c4inst], 500⟩

/-- C4 (counterexample to the claim as stated): a run search that carries the
`tech_notes` flag, by a caller holding the matching capability, returns
records with `tech_notes` and `layout` present — so the redaction is not
applied "for every caller and every combination of request flags and
capabilities". -/
theorem run_search_tech_notes_counterexample :
    qdLookup [("type", ["run"]), ("tech_notes", [""])] "tech_notes" = some [""]
    ∧ (runSearch c4env ⟨["tracker.can_view_tech_notes"]⟩
        [("type", ["run"]), ("tech_notes", [""])]).map
        (fun out => out.result.map
          (fun r => (r.hasKey "tech_notes", r.hasKey "layout")))
      = .ok [(true, true)] :=
  ⟨rfl, rfl⟩

/-- The record the run search returns for `c4inst` without the unlock. -/
def c4rec : Fields :=
  [("name", .str "Game"), ("public", .str "Game"), ("runners", .keys [1, 2]),
   ("hosts", .keys []), ("commentators", .keys [])]

/-- Concrete instantiation of the C4 (amended) theorem. -/
theorem run_search_redacts_internal_notes_witness :
    Fields.hasKey c4rec "tech_notes" = false
    ∧ Fields.hasKey c4rec "layout" = false :=
  run_search_redacts_internal_notes
    (show runSearch c4env ⟨[]⟩ [("type", ["run"])] =
      .ok ⟨[c4rec], .data [c4rec]⟩ from rfl)
    rfl rfl (List.mem_singleton_self _)

/-!
## C3 — donor anonymity on donor searches
-/

theorem donor_stage_first_total {v : Value} {f : Fields} {s : String}
    (hl : f.lookup "lastname" = some (.str s)) :
    ∃ f1, donor_stage_first v f = some f1 := by
  unfold donor_stage_first
  by_cases hc : (v == Value.str "FIRST") = true
  · rw [if_pos hc, hl]
    by_cases hs : s = ""
    · subst hs
      exact ⟨f, rfl⟩
    · refine ⟨f.set "lastname" (.str (String.mk (s.data.take 1) ++ "...")), ?_⟩
      have ht : (Value.str s).truthy = true := by
        simp [Value.truthy, hs]
      have hfc : firstCharEllipsis (.str s) =
          some (.str (String.mk (s.data.take 1) ++ "...")) := by
        simp [firstCharEllipsis, hs]
      simp [bind, Option.bind, ht, hfc]
  · rw [if_neg hc]
    exact ⟨f, rfl⟩

theorem donor_stage_names_total {v : Value} {f : Fields}
    (h1 : f.hasKey "lastname" = true) (h2 : f.hasKey "firstname" = true) :
    ∃ f2, donor_stage_names v f = some f2 := by
  unfold donor_stage_names
  by_cases hc : (v == Value.str "ALIAS" || v == Value.str "ANON") = true
  · rw [if_pos hc]
    have d1 : f.delKey "lastname" = some (f.eraseKey "lastname") := by
      unfold Fields.delKey
      rw [if_pos h1]
    have h2' : (f.eraseKey "lastname").hasKey "firstname" = true := by
      rw [Fields.hasKey_eraseKey_ne _ (by decide)]
      exact h2
    have d2 : (f.eraseKey "lastname").delKey "firstname" =
        some ((f.eraseKey "lastname").eraseKey "firstname") := by
      unfold Fields.delKey
      rw [if_pos h2']
    exact ⟨(f.eraseKey "lastname").eraseKey "firstname",
      by simp [bind, Option.bind, d1, d2]⟩
  · rw [if_neg hc]
    exact ⟨f, rfl⟩

theorem donor_stage_anon_total {v : Value} {f : Fields}
    (h3 : f.hasKey "alias" = true) (h4 : f.hasKey "alias_num" = true)
    (h5 : f.hasKey "canonical_url" = true) :
    ∃ g, donor_stage_anon v f = some g := by
  unfold donor_stage_anon
  by_cases hc : (v == Value.str "ANON") = true
  · rw [if_pos hc]
    have d1 : f.delKey "alias" = some (f.eraseKey "alias") := by
      unfold Fields.delKey
      rw [if_pos h3]
    have h4' : (f.eraseKey "alias").hasKey "alias_num" = true := by
      rw [Fields.hasKey_eraseKey_ne _ (by decide)]
      exact h4
    have d2 : (f.eraseKey "alias").delKey "alias_num" =
        some ((f.eraseKey "alias").eraseKey "alias_num") := by
      unfold Fields.delKey
      rw [if_pos h4']
    have h5' : ((f.eraseKey "alias").eraseKey "alias_num").hasKey
        "canonical_url" = true := by
      rw [Fields.hasKey_eraseKey_ne _ (by decide),
        Fields.hasKey_eraseKey_ne _ (by decide)]
      exact h5
    have d3 : ((f.eraseKey "alias").eraseKey "alias_num").delKey
        "canonical_url" = some (((f.eraseKey "alias").eraseKey
          "alias_num").eraseKey "canonical_url") := by
      unfold Fields.delKey
      rw [if_pos h5']
    exact ⟨((f.eraseKey "alias").eraseKey "alias_num").eraseKey "canonical_url",
      by simp [bind, Option.bind, d1, d2, d3]⟩
  · rw [if_neg hc]
    exact ⟨f, rfl⟩

/-- The donor filter succeeds on any record carrying the expected donor keys
(with a string last name). -/
theorem donor_privacy_filter_total {f : Fields} {v : Value} {s : String}
    (hv : f.lookup "visibility" = some v)
    (hl : f.lookup "lastname" = some (.str s))
    (hfn : f.hasKey "firstname" = true)
    (ha : f.hasKey "alias" = true)
    (han : f.hasKey "alias_num" = true)
    (hcu : f.hasKey "canonical_url" = true) :
    ∃ g, donor_privacy_filter f = some g := by
  obtain ⟨f1, hf1⟩ := donor_stage_first_total (v := v) hl
  have u1 : ∀ k, k ≠ "lastname" → f1.lookup k = f.lookup k :=
    fun k hk => donor_stage_first_untouched hf1 hk
  have k1ln : f1.hasKey "lastname" = true := by
    unfold donor_stage_first at hf1
    by_cases hc : (v == Value.str "FIRST") = true
    · rw [if_pos hc, hl] at hf1
      by_cases hs : s = ""
      · subst hs
        simp [bind, Option.bind, Value.truthy] at hf1
        rw [← hf1, Fields.hasKey_eq_isSome, hl]
        rfl
      · have ht : (Value.str s).truthy = true := by simp [Value.truthy, hs]
        have hfc : firstCharEllipsis (.str s) =
            some (.str (String.mk (s.data.take 1) ++ "...")) := by
          simp [firstCharEllipsis, hs]
        simp [bind, Option.bind, ht, hfc] at hf1
        rw [← hf1]
        exact Fields.hasKey_set_self f _ _
    · rw [if_neg hc] at hf1
      simp only [Option.pure_def, Option.some.injEq] at hf1
      rw [← hf1, Fields.hasKey_eq_isSome, hl]
      rfl
  have k1fn : f1.hasKey "firstname" = true := by
    rw [Fields.hasKey_eq_isSome, u1 _ (by decide), ← Fields.hasKey_eq_isSome]
    exact hfn
  obtain ⟨f2, hf2⟩ := donor_stage_names_total (v := v) k1ln k1fn
  have u2 : ∀ k, k ≠ "lastname" → k ≠ "firstname" → f2.lookup k = f1.lookup k :=
    fun k hk1 hk2 => donor_stage_names_untouched hf2 hk1 hk2
  have k2a : f2.hasKey "alias" = true := by
    rw [Fields.hasKey_eq_isSome, u2 _ (by decide) (by decide),
      u1 _ (by decide), ← Fields.hasKey_eq_isSome]
    exact ha
  have k2an : f2.hasKey "alias_num" = true := by
    rw [Fields.hasKey_eq_isSome, u2 _ (by decide) (by decide),
      u1 _ (by decide), ← Fields.hasKey_eq_isSome]
    exact han
  have k2cu : f2.hasKey "canonical_url" = true := by
    rw [Fields.hasKey_eq_isSome, u2 _ (by decide) (by decide),
      u1 _ (by decide), ← Fields.hasKey_eq_isSome]
    exact hcu
  obtain ⟨g, hg⟩ := donor_stage_anon_total (v := v) k2a k2an k2cu
  refine ⟨g, ?_⟩
  unfold donor_privacy_filter
  rw [hv]
  simp [bind, Option.bind, hf1, hf2, hg]

/-- `DEFAULT_PAGINATION_LIMIT` (api.py:366), the configured value of
`settings.TRACKER_PAGINATION_LIMIT` in the default configuration. -/
def DEFAULT_PAGINATION_LIMIT : Int := 500

/-- A donor row as serialization expects it: the five allowlisted donor
fields present (string last name) plus the canonical identifier. -/
def wellFormedDonor (inst : Instance) : Prop :=
  (∃ v, inst.fields.lookup "alias" = some v)
  ∧ (∃ v, inst.fields.lookup "alias_num" = some v)
  ∧ (∃ v, inst.fields.lookup "firstname" = some v)
  ∧ (∃ s, inst.fields.lookup "lastname" = some (.str s))
  ∧ (∃ v, inst.fields.lookup "visibility" = some v)
  ∧ (∃ v, inst.fields.lookup "canonical_url" = some v)

/-- C3: on every donor search made without the `donor_names` unlock, every
returned record whose visibility reads `ANON` carries neither alias,
alias-number, first name, last name, nor the canonical identifier; and the
search itself still succeeds and returns such records (shown for a
well-formed donor row under the default pagination configuration). -/
theorem donor_search_anon_redaction :
    (∀ (env : SearchEnv) (u : User) (params : QueryDict) (out : SearchOutcome)
        (r : Fields),
      runSearch env u params = .ok out →
      qdLookup params "type" = some ["donor"] →
      qdLookup params "donor_names" = none →
      r ∈ out.result →
      r.lookup "visibility" = some (.str "ANON") →
      r.hasKey "alias" = false ∧ r.hasKey "alias_num" = false ∧
      r.hasKey "firstname" = false ∧ r.hasKey "lastname" = false ∧
      r.hasKey "canonical_url" = false)
    ∧ (∀ (inst : Instance) (u : User), wellFormedDonor inst →
      ∃ out, runSearch ⟨[inst], DEFAULT_PAGINATION_LIMIT⟩ u
          [("type", ["donor"])] = .ok out ∧ out.result.length = 1) := by
  constructor
  · intro env u params out r h hty hdn hr hvis
    obtain ⟨q, hq, hrec, _⟩ := runSearch_ok_inv h
    obtain ⟨ityp, _, _, idnN, _, _, _, _, _, _, _, _⟩ := parseSearch_ok_inv hq
    have hqty : q.ty = "donor" := by
      rw [hty] at ityp
      exact (List.cons.injEq _ _ _ _).mp ((Option.some.injEq _ _).mp ityp.symm) |>.1
    obtain ⟨inst, hmem, hproc⟩ := searchRecords_mem hrec hr
    obtain ⟨f, hf, hap⟩ := processInstance_ok_inv hproc
    rw [hqty, idnN hdn] at hap
    have hap' : donor_privacy_filter f = some r := hap
    obtain ⟨a1, a2, a3, a4, a5⟩ := donor_filter_cases hap' hvis
    exact ⟨a1, a2, a3, a4, a5⟩
  · intro inst u hwf
    obtain ⟨⟨va, ha⟩, ⟨vn, hn⟩, ⟨vf, hfn⟩, ⟨s, hl⟩, ⟨vv, hv⟩, ⟨vc, hcu⟩⟩ := hwf
    have hq : parseSearch [("type", ["donor"])] u DEFAULT_PAGINATION_LIMIT =
        .ok ⟨"donor", false, false, false, false, 0, 500⟩ := rfl
    -- the enriched record
    have hser : serializeFields inst.fields
        (some ["alias", "alias_num", "firstname", "lastname", "visibility"]) =
        [("alias", va), ("alias_num", vn), ("firstname", vf),
         ("lastname", .str s), ("visibility", vv), ("canonical_url", vc)] := by
      unfold serializeFields
      simp only [List.filterMap_cons, List.filterMap_nil, ha, hn, hfn, hl, hv, hcu,
        Option.map_some']
      rfl
    have he : enrichInstance "donor" inst =
        .ok ((serializeFields inst.fields
          (some ["alias", "alias_num", "firstname", "lastname", "visibility"])).set
          "public"
          (.str (match inst.visibleName with | some n => n | none => inst.strRepr))) :=
      rfl
    set pub : Value :=
      .str (match inst.visibleName with | some n => n | none => inst.strRepr) with hpub
    have hf0 : (serializeFields inst.fields
        (some ["alias", "alias_num", "firstname", "lastname", "visibility"])).set
        "public" pub =
        [("alias", va), ("alias_num", vn), ("firstname", vf),
         ("lastname", .str s), ("visibility", vv), ("canonical_url", vc),
         ("public", pub)] := by
      rw [hser]
      rfl
    obtain ⟨g, hg⟩ := donor_privacy_filter_total
      (f := [("alias", va), ("alias_num", vn), ("firstname", vf),
        ("lastname", .str s), ("visibility", vv), ("canonical_url", vc),
        ("public", pub)]) (v := vv) (s := s) rfl rfl rfl rfl rfl rfl
    have hproc : processInstance "donor" false false false inst = .ok g := by
      unfold processInstance
      rw [he]
      simp only [bind, Except.bind]
      have : applyPrivacy "donor" false false false
          ((serializeFields inst.fields
            (some ["alias", "alias_num", "firstname", "lastname", "visibility"])).set
            "public" pub) = donor_privacy_filter
          [("alias", va), ("alias_num", vn), ("firstname", vf),
           ("lastname", .str s), ("visibility", vv), ("canonical_url", vc),
           ("public", pub)] := by
        rw [hf0]
        rfl
      rw [this, hg]
    refine ⟨⟨[g], .data [g]⟩, ?_, rfl⟩
    unfold runSearch
    rw [hq]
    simp only [bind, Except.bind]
    have hsr : searchRecords ⟨[inst], DEFAULT_PAGINATION_LIMIT⟩
        ⟨"donor", false, false, false, false, 0, 500⟩ = .ok [g] := by
      have hsr1 : searchRecords ⟨[inst], DEFAULT_PAGINATION_LIMIT⟩
          ⟨"donor", false, false, false, false, 0, 500⟩ =
          exceptMapM (processInstance "donor" false false false) [inst] := rfl
      rw [hsr1]
      unfold exceptMapM
      rw [hproc]
      rfl
    rw [hsr]
    rfl

/-- Fixture: an anonymous donor row. -/
def c3inst : Instance :=
  { pk := 7
    fields := [("alias", .str "Foo"), ("alias_num", .int 42),
               ("firstname", .str "Jane"), ("lastname", .str "Doe"),
               ("visibility", .str "ANON"), ("canonical_url", .str "/donor/7")]
    visibleName := some "(Anonymous)"
    strRepr := "Foo#42"
    annots := []
    prefetched := []
    rels := [] }

/-- What the donor search returns for `c3inst`. -/
def c3rec : Fields := [("visibility", .str "ANON"), ("public", .str "(Anonymous)")]

/-- Concrete instantiation of the C3 theorem. -/
theorem donor_search_anon_redaction_witness :
    Fields.hasKey c3rec "alias" = false
    ∧ Fields.hasKey c3rec "alias_num" = false
    ∧ Fields.hasKey c3rec "firstname" = false
    ∧ Fields.hasKey c3rec "lastname" = false
    ∧ Fields.hasKey c3rec "canonical_url" = false :=
  donor_search_anon_redaction.1 ⟨[c3inst], 500⟩ ⟨[]⟩ [("type", ["donor"])]
    ⟨[c3rec], .data [c3rec]⟩ c3rec rfl rfl rfl (List.mem_singleton_self _) rfl

/-!
## C2 — donor anonymity on donation searches
-/

theorem donation_stage_anon_untouched {f g : Fields}
    (h : donation_stage_anon f = some g) {k : String}
    (h1 : k ≠ "donor") (h2 : k ≠ "donor__alias") (h3 : k ≠ "donor__alias_num")
    (h4 : k ≠ "donor__visibility") (h5 : k ≠ "donor__canonical_url") :
    g.lookup k = f.lookup k := by
  unfold donation_stage_anon at h
  simp only [bind, Option.bind_eq_some] at h
  obtain ⟨v, hv, h⟩ := h
  by_cases hc : (v == Value.str "ANON") = true
  · rw [if_pos hc] at h
    simp only [bind, Option.bind_eq_some] at h
    obtain ⟨fa, hfa, fb, hfb, fc, hfc, fd, hfd, h⟩ := h
    rw [Fields.delKey_eq_some h, Fields.delKey_eq_some hfd, Fields.delKey_eq_some hfc,
      Fields.delKey_eq_some hfb, Fields.delKey_eq_some hfa,
      Fields.lookup_eraseKey_ne _ h5, Fields.lookup_eraseKey_ne _ h4,
      Fields.lookup_eraseKey_ne _ h3, Fields.lookup_eraseKey_ne _ h2,
      Fields.lookup_eraseKey_ne _ h1]
  · rw [if_neg hc] at h
    simp only [Option.pure_def, Option.some.injEq] at h
    rw [← h]

/-- The donation filter changes nothing outside the comment keys and the
five donor-derived keys it may delete; in particular the flattened display
string `donor__public` always survives. -/
theorem donation_filter_untouched {f g : Fields}
    (h : donation_privacy_filter f = some g) {k : String}
    (h1 : k ≠ "comment") (h2 : k ≠ "commentlanguage") (h3 : k ≠ "donor")
    (h4 : k ≠ "donor__alias") (h5 : k ≠ "donor__alias_num")
    (h6 : k ≠ "donor__visibility") (h7 : k ≠ "donor__canonical_url") :
    g.lookup k = f.lookup k := by
  unfold donation_privacy_filter at h
  simp only [bind, Option.bind_eq_some] at h
  obtain ⟨cs, hcs, f1, hf1, hg⟩ := h
  rw [donation_stage_anon_untouched hg h3 h4 h5 h6 h7,
    donation_stage_comment_untouched hf1 h1 h2]

/-- C2 (amended): on every donation search made without the `all_comments`
unlock, a returned record whose related donor was anonymous (recognizable
because its flattened `donor__visibility` was removed) carries no `donor`
key, no `donor__alias`, no `donor__alias_num` and no `donor__canonical_url`;
the flattened display string `donor__public` is not removed by the filter. -/
theorem donation_search_anon_redaction :
    (∀ (env : SearchEnv) (u : User) (params : QueryDict) (out : SearchOutcome)
        (r : Fields),
      runSearch env u params = .ok out →
      qdLookup params "type" = some ["donation"] →
      qdLookup params "all_comments" = none →
      r ∈ out.result →
      r.hasKey "donor__visibility" = false →
      r.hasKey "donor" = false ∧ r.hasKey "donor__alias" = false ∧
      r.hasKey "donor__alias_num" = false ∧
      r.hasKey "donor__canonical_url" = false)
    ∧ (∀ f g : Fields, donation_privacy_filter f = some g →
        g.lookup "donor__public" = f.lookup "donor__public") := by
  constructor
  · intro env u params out r h hty hac hr hvis
    obtain ⟨q, hq, hrec, _⟩ := runSearch_ok_inv h
    obtain ⟨ityp, _, _, _, _, iacN, _, _, _, _, _, _⟩ := parseSearch_ok_inv hq
    have hqty : q.ty = "donation" := by
      rw [hty] at ityp
      exact (List.cons.injEq _ _ _ _).mp ((Option.some.injEq _ _).mp ityp.symm) |>.1
    obtain ⟨inst, hmem, hproc⟩ := searchRecords_mem hrec hr
    obtain ⟨f, hf, hap⟩ := processInstance_ok_inv hproc
    rw [hqty, iacN hac] at hap
    have hap' : donation_privacy_filter f = some r := hap
    exact donation_filter_cases hap' hvis
  · intro f g h
    exact donation_filter_untouched h (by decide) (by decide) (by decide)
      (by decide) (by decide) (by decide) (by decide)

/-- Fixture: the anonymous donor related to a donation row. -/
def c2donor : RelInst :=
  { pk := 5
    fields := [("alias", .str "Foo"), ("alias_num", .int 1),
               ("visibility", .str "ANON"), ("canonical_url", .str "/donor/5")]
    visibleName := some "(Anonymous)"
    strRepr := "Foo#1" }

/-- Fixture: a donation row whose related donor is anonymous. -/
def c2inst : Instance :=
  { pk := 10
    fields := [("donor", .int 5), ("event", .int 1), ("domain", .str "LOCAL"),
               ("transactionstate", .str "COMPLETED"), ("readstate", .str "READ"),
               ("commentstate", .str "APPROVED"), ("amount", .int 25),
               ("currency", .str "USD"), ("timereceived", .str "2024-01-01"),
               ("comment", .str "hi"), ("commentlanguage", .str "en"),
               ("pinned", .int 0)]
    visibleName := none
    strRepr := "Foo#1 (25)"
    annots := []
    prefetched := []
    rels := [("donor", c2donor)] }

/-- C2 (counterexample to the claim as stated): a donation search without
the `all_comments` unlock on a record whose donor is anonymous still returns
the flattened donor display string `donor__public` (while the flattened
`donor__alias` is indeed removed) — so not "every donor-derived field" is
removed. -/
theorem donation_search_donor_public_counterexample :
    qdLookup [("type", ["donation"])] "all_comments" = none
    ∧ c2donor.fields.lookup "visibility" = some (.str "ANON")
    ∧ (runSearch ⟨[c2inst], 500⟩ ⟨[]⟩ [("type", ["donation"])]).map
        (fun out => out.result.map (fun r =>
          (r.hasKey "donor__public", r.hasKey "donor__alias")))
      = .ok [(true, false)] :=
  ⟨rfl, rfl, rfl⟩

/-- What the donation search returns for `c2inst` without the unlock. -/
def c2rec : Fields :=
  [("event", .int 1), ("domain", .str "LOCAL"),
   ("transactionstate", .str "COMPLETED"), ("readstate", .str "READ"),
   ("commentstate", .str "APPROVED"), ("amount", .int 25),
   ("currency", .str "USD"), ("timereceived", .str "2024-01-01"),
   ("comment", .str "hi"), ("commentlanguage", .str "en"), ("pinned", .int 0),
   ("public", .str "Foo#1 (25)"), ("donor__public", .str "(Anonymous)")]

/-- The serialized record for `c2inst` before redaction. -/
def c2pre : Fields :=
  [("donor", .int 5), ("event", .int 1), ("domain", .str "LOCAL"),
   ("transactionstate", .str "COMPLETED"), ("readstate", .str "READ"),
   ("commentstate", .str "APPROVED"), ("amount", .int 25),
   ("currency", .str "USD"), ("timereceived", .str "2024-01-01"),
   ("comment", .str "hi"), ("commentlanguage", .str "en"), ("pinned", .int 0),
   ("public", .str "Foo#1 (25)"), ("donor__alias", .str "Foo"),
   ("donor__alias_num", .int 1), ("donor__visibility", .str "ANON"),
   ("donor__canonical_url", .str "/donor/5"),
   ("donor__public", .str "(Anonymous)")]

/-- Concrete instantiation of the C2 (amended) theorem. -/
theorem donation_search_anon_redaction_witness :
    (Fields.hasKey c2rec "donor" = false
      ∧ Fields.hasKey c2rec "donor__alias" = false
      ∧ Fields.hasKey c2rec "donor__alias_num" = false
      ∧ Fields.hasKey c2rec "donor__canonical_url" = false)
    ∧ Fields.lookup c2rec "donor__public" = Fields.lookup c2pre "donor__public" :=
  ⟨donation_search_anon_redaction.1 ⟨[c2inst], 500⟩ ⟨[]⟩ [("type", ["donation"])]
      ⟨[c2rec], .data [c2rec]⟩ c2rec rfl rfl rfl (List.mem_singleton_self _) rfl,
    donation_search_anon_redaction.2 c2pre c2rec rfl⟩

/-!
## C5 — pagination contract
-/

/-- C5: a `limit` above the configured ceiling is rejected; a `limit` of 0
or below is rejected; an absent `limit` defaults to the ceiling and an
absent `offset` defaults to 0; an `offset` at or beyond the filtered result
count yields a successful response with an empty record list. -/
theorem search_pagination_contract :
    (∀ (env : SearchEnv) (u : User) (params : QueryDict) (s : String) (n : Int),
      qdLookup params "limit" = some [s] → pyInt? s = some n →
      env.ceiling < n → ∀ out, runSearch env u params ≠ .ok out)
    ∧ (∀ (env : SearchEnv) (u : User) (params : QueryDict) (s : String) (n : Int),
      qdLookup params "limit" = some [s] → pyInt? s = some n →
      n < 1 → ∀ out, runSearch env u params ≠ .ok out)
    ∧ (∀ (env : SearchEnv) (u : User) (params : QueryDict) (q : SearchQuery),
      parseSearch params u env.ceiling = .ok q →
      (qdLookup params "limit" = none → q.limit = env.ceiling)
      ∧ (qdLookup params "offset" = none → q.offset = 0))
    ∧ (∀ (env : SearchEnv) (u : User) (params : QueryDict) (q : SearchQuery),
      parseSearch params u env.ceiling = .ok q →
      (env.rows.length : Int) ≤ q.offset →
      runSearch env u params =
        .ok ⟨[], if q.queries then .queryLog else .data []⟩) := by
  refine ⟨?_, ?_, ?_, ?_⟩
  · intro env u params s n hl hp hgt out hok
    obtain ⟨q, hq, _, _⟩ := runSearch_ok_inv hok
    obtain ⟨_, _, _, _, _, _, _, _, _, _, _, ilimS⟩ := parseSearch_ok_inv hq
    obtain ⟨n', hp', hle, _, _⟩ := ilimS s hl
    rw [hp] at hp'
    cases hp'
    omega
  · intro env u params s n hl hp hlt out hok
    obtain ⟨q, hq, _, _⟩ := runSearch_ok_inv hok
    obtain ⟨_, _, _, _, _, _, _, _, _, _, _, ilimS⟩ := parseSearch_ok_inv hq
    obtain ⟨n', hp', _, hge, _⟩ := ilimS s hl
    rw [hp] at hp'
    cases hp'
    omega
  · intro env u params q hq
    obtain ⟨_, _, _, _, _, _, _, _, _, ioffN, ilimN, _⟩ := parseSearch_ok_inv hq
    exact ⟨fun h => (ilimN h).1, ioffN⟩
  · intro env u params q hq hoff
    have hnn : ¬ (q.offset < 0) := by
      have : (0 : Int) ≤ (env.rows.length : Int) := Int.ofNat_nonneg _
      omega
    have hdrop : env.rows.drop q.offset.toNat = [] :=
      List.drop_eq_nil_of_le (by omega)
    have hsr : searchRecords env q = .ok [] := by
      unfold searchRecords
      rw [if_neg hnn]
      unfold pageOf
      rw [hdrop, List.take_nil]
      rfl
    unfold runSearch
    rw [hq]
    simp only [bind, Except.bind]
    rw [hsr]
    rfl

/-- Concrete instantiations of all four clauses of the pagination theorem at
the default ceiling of 500. -/
theorem search_pagination_contract_witness :
    (runSearch ⟨[], 500⟩ ⟨[]⟩ [("type", ["donor"]), ("limit", ["501"])]
      ≠ .ok ⟨[], .data []⟩)
    ∧ (runSearch ⟨[], 500⟩ ⟨[]⟩ [("type", ["donor"]), ("limit", ["0"])]
      ≠ .ok ⟨[], .data []⟩)
    ∧ ((⟨"donor", false, false, false, false, 0, 500⟩ : SearchQuery).limit = 500
      ∧ (⟨"donor", false, false, false, false, 0, 500⟩ : SearchQuery).offset = 0)
    ∧ runSearch ⟨[], 500⟩ ⟨[]⟩ [("type", ["donor"]), ("offset", ["5"])]
      = .ok ⟨[], .data []⟩ := by
  refine ⟨?_, ?_, ?_, ?_⟩
  · exact search_pagination_contract.1 ⟨[], 500⟩ ⟨[]⟩
      [("type", ["donor"]), ("limit", ["501"])] "501" 501 rfl rfl (by decide)
      ⟨[], .data []⟩
  · exact search_pagination_contract.2.1 ⟨[], 500⟩ ⟨[]⟩
      [("type", ["donor"]), ("limit", ["0"])] "0" 0 rfl rfl (by decide)
      ⟨[], .data []⟩
  · exact (search_pagination_contract.2.2.1 ⟨[], 500⟩ ⟨[]⟩ [("type", ["donor"])]
      ⟨"donor", false, false, false, false, 0, 500⟩ rfl).imp
      (fun h => h rfl) (fun h => h rfl)
  · exact search_pagination_contract.2.2.2 ⟨[], 500⟩ ⟨[]⟩
      [("type", ["donor"]), ("offset", ["5"])]
      ⟨"donor", false, false, false, false, 5, 500⟩ rfl (by decide)

/-!
## C10 — the queries flag replaces the response body
-/

/-- C10: when the request carries the `queries` flag and the principal holds
the view-queries capability, the response body is the database query log;
the record list is nevertheless fully computed through serialization and
privacy filtering (`searchRecords`), and that computed list is what the
outcome discards. -/
theorem search_queries_flag_discards_records
    {env : SearchEnv} {u : User} {params : QueryDict} {q : SearchQuery}
    {out : SearchOutcome}
    (hq : parseSearch params u env.ceiling = .ok q)
    (hflag : q.queries = true)
    (h : runSearch env u params = .ok out) :
    out.body = .queryLog
    ∧ searchRecords env q = .ok out.result
    ∧ qdLookup params "queries" = some [""]
    ∧ u.has_perm "tracker.view_queries" = true := by
  obtain ⟨q', hq', hrec, hbody⟩ := runSearch_ok_inv h
  have hqq : q' = q := by
    rw [hq] at hq'
    injection hq' with hqq
    exact hqq.symm
  rw [hqq] at hrec hbody
  obtain ⟨_, _, iq, _, _, _, _, _, _, _, _, _⟩ := parseSearch_ok_inv hq
  obtain ⟨hlk, hperm⟩ := iq hflag
  refine ⟨?_, hrec, hlk, hperm⟩
  rw [hbody, hflag]
  rfl

/-- Concrete instantiation of the C10 theorem: the run search of `c4env`
with the `queries` flag honoured. -/
theorem search_queries_flag_discards_records_witness :
    (⟨[c4rec], RespBody.queryLog⟩ : SearchOutcome).body = .queryLog
    ∧ searchRecords c4env ⟨"run", true, false, false, false, 0, 500⟩
      = .ok (⟨[c4rec], RespBody.queryLog⟩ : SearchOutcome).result
    ∧ qdLookup [("type", ["run"]), ("queries", [""])] "queries" = some [""]
    ∧ User.has_perm ⟨["tracker.view_queries"]⟩ "tracker.view_queries" = true :=
  search_queries_flag_discards_records
    (show parseSearch [("type", ["run"]), ("queries", [""])]
        ⟨["tracker.view_queries"]⟩ c4env.ceiling =
      .ok ⟨"run", true, false, false, false, 0, 500⟩ from rfl)
    rfl
    (show runSearch c4env ⟨["tracker.view_queries"]⟩
        [("type", ["run"]), ("queries", [""])] =
      .ok ⟨[c4rec], RespBody.queryLog⟩ from rfl)

/-!
## C6/C7 — lemmas about the resequencing pipeline
-/

theorem insertBySub_perm (x : Item) (l : List Item) :
    (insertBySub x l).Perm (x :: l) := by
  induction l with
  | nil => exact List.Perm.refl _
  | cons y ys ih =>
    unfold insertBySub
    by_cases hc : x.suborder ≤ y.suborder
    · rw [if_pos hc]
    · rw [if_neg hc]
      exact (ih.cons y).trans (List.Perm.swap x y ys)

theorem sortBySub_perm (l : List Item) : (sortBySub l).Perm l := by
  induction l with
  | nil => exact List.Perm.refl _
  | cons y ys ih =>
    exact (insertBySub_perm y (sortBySub ys)).trans (ih.cons y)

/-- The pointwise effect of a run of sibling saves. -/
def applySubUpds (upds : List (Int × Int)) (x : Item) : Item :=
  upds.foldl (fun y u => if y.id == u.1 then { y with suborder := u.2 } else y) x

theorem applySubUpds_cons (u : Int × Int) (us : List (Int × Int)) (x : Item) :
    applySubUpds (u :: us) x =
      applySubUpds us (if x.id == u.1 then { x with suborder := u.2 } else x) := rfl

theorem applySubUpds_id (upds : List (Int × Int)) (x : Item) :
    (applySubUpds upds x).id = x.id ∧ (applySubUpds upds x).order = x.order
    ∧ (applySubUpds upds x).eventLocked = x.eventLocked := by
  induction upds generalizing x with
  | nil => exact ⟨rfl, rfl, rfl⟩
  | cons u us ih =>
    rw [applySubUpds_cons]
    obtain ⟨h1, h2, h3⟩ := ih (if x.id == u.1 then { x with suborder := u.2 } else x)
    rw [h1, h2, h3]
    refine ⟨?_, ?_, ?_⟩ <;> by_cases hc : (x.id == u.1) = true <;> simp [hc]

theorem applySubUpds_skip {upds : List (Int × Int)} {x : Item}
    (h : x.id ∉ upds.map Prod.fst) : applySubUpds upds x = x := by
  induction upds with
  | nil => rfl
  | cons u us ih =>
    simp only [List.map_cons, List.mem_cons, not_or] at h
    have hne : (x.id == u.1) = false := by simp [h.1]
    rw [applySubUpds_cons, hne]
    exact ih h.2

theorem saveSub_eq_map (st : IState) (a b : Int) :
    saveSub st a b =
      st.map (fun x => if x.id == a then { x with suborder := b } else x) := rfl

theorem saveSubs_eq_map (st : IState) (upds : List (Int × Int)) :
    saveSubs st upds = st.map (applySubUpds upds) := by
  induction upds generalizing st with
  | nil =>
    simp only [saveSubs, List.foldl_nil]
    have h : ∀ x : Item, x = applySubUpds [] x := fun _ => rfl
    rw [List.map_congr_left (fun a _ => (h a).symm)]
    exact (List.map_id _).symm
  | cons u us ih =>
    have h1 : saveSubs st (u :: us) = saveSubs (saveSub st u.1 u.2) us := rfl
    rw [h1, ih, saveSub_eq_map, List.map_map]
    exact List.map_congr_left (fun a _ => rfl)

theorem enumSubs_fst (l : List Item) (f : Nat → Int) :
    (enumSubs l f).map Prod.fst = l.map (fun x => x.id) := by
  induction l generalizing f with
  | nil => rfl
  | cons y ys ih =>
    show y.id :: (enumSubs ys (fun i => f (i + 1))).map Prod.fst
      = y.id :: ys.map (fun x => x.id)
    rw [ih]

theorem applySubUpds_enum_get (l : List Item) (f : Nat → Int)
    (h : (l.map (fun x => x.id)).Nodup) (i : Nat) (hi : i < l.length) :
    applySubUpds (enumSubs l f) (l.get ⟨i, hi⟩) =
      { l.get ⟨i, hi⟩ with suborder := f i } := by
  induction l generalizing f i with
  | nil => cases hi
  | cons y ys ih =>
    simp only [List.map_cons, List.nodup_cons] at h
    cases i with
    | zero =>
      show applySubUpds ((y.id, f 0) :: enumSubs ys (fun i => f (i + 1))) y
        = { y with suborder := f 0 }
      rw [applySubUpds_cons]
      simp only [beq_self_eq_true, if_true]
      refine applySubUpds_skip ?_
      rw [enumSubs_fst]
      exact h.1
    | succ j =>
      have hj : j < ys.length := Nat.lt_of_succ_lt_succ hi
      show applySubUpds ((y.id, f 0) :: enumSubs ys (fun i => f (i + 1)))
          (ys.get ⟨j, hj⟩) = { ys.get ⟨j, hj⟩ with suborder := f (j + 1) }
      rw [applySubUpds_cons]
      have hne : ((ys.get ⟨j, hj⟩).id == y.id) = false := by
        have hmem : (ys.get ⟨j, hj⟩).id ∈ ys.map (fun x => x.id) :=
          List.mem_map_of_mem _ (ys.get_mem _ _)
        have hx : (ys.get ⟨j, hj⟩).id ≠ y.id := fun he => h.1 (he ▸ hmem)
        simpa using hx
      rw [hne]
      simp only [Bool.false_eq_true, if_false]
      exact ih (fun i => f (i + 1)) h.2 j hj

theorem map_sub_applySubUpds_enum (l : List Item) (f : Nat → Int)
    (h : (l.map (fun x => x.id)).Nodup) :
    l.map (fun x => (applySubUpds (enumSubs l f) x).suborder)
      = (List.range l.length).map f := by
  apply List.ext_get
  · simp
  · intro i h1 h2
    simp only [List.get_map, List.get_range]
    rw [applySubUpds_enum_get l f h i (by simpa using h1)]

theorem id_inj {st : IState} (h : nodupIds st) {x y : Item}
    (hx : x ∈ st) (hy : y ∈ st) (hid : x.id = y.id) : x = y :=
  List.inj_on_of_nodup_map h hx hy hid

theorem filter_id_or_perm (l : List Item) (a : Item) (q : Item → Bool)
    (ha : a ∈ l) (hnodup : (l.map (fun x => x.id)).Nodup) :
    (l.filter (fun x => x.id == a.id || q x)).Perm
      (a :: l.filter (fun x => q x && x.id != a.id)) := by
  induction l with
  | nil => cases ha
  | cons y ys ih =>
    simp only [List.map_cons, List.nodup_cons] at hnodup
    rcases List.mem_cons.mp ha with rfl | hays
    · have hq1 : ∀ x ∈ ys, (x.id == a.id || q x) = q x := by
        intro x hx
        have hne : x.id ≠ a.id := by
          intro he
          exact hnodup.1 (he ▸ List.mem_map_of_mem _ hx)
        simp [hne]
      have hq2 : ∀ x ∈ ys, (q x && x.id != a.id) = q x := by
        intro x hx
        have hne : x.id ≠ a.id := by
          intro he
          exact hnodup.1 (he ▸ List.mem_map_of_mem _ hx)
        simp [hne]
      have h1 : (a :: ys).filter (fun x => x.id == a.id || q x)
          = a :: ys.filter q := by
        rw [List.filter_cons]
        simp only [beq_self_eq_true, Bool.true_or, if_true]
        rw [List.filter_congr hq1]
      have h2 : (a :: ys).filter (fun x => q x && x.id != a.id)
          = ys.filter q := by
        rw [List.filter_cons]
        simp only [bne_self_eq_false, Bool.and_false, Bool.false_eq_true, if_false]
        rw [List.filter_congr hq2]
      rw [h1, h2]
    · have hyane : y.id ≠ a.id := by
        intro he
        exact hnodup.1 (he ▸ List.mem_map_of_mem _ hays)
      have hya : (y.id == a.id) = false := by simp [hyane]
      specialize ih hays hnodup.2
      by_cases hq : q y = true
      · have h1 : (y :: ys).filter (fun x => x.id == a.id || q x)
            = y :: ys.filter (fun x => x.id == a.id || q x) := by
          rw [List.filter_cons]
          simp [hya, hq]
        have h2 : (y :: ys).filter (fun x => q x && x.id != a.id)
            = y :: ys.filter (fun x => q x && x.id != a.id) := by
          rw [List.filter_cons]
          simp [hq, hyane]
        rw [h1, h2]
        exact (ih.cons y).trans (List.Perm.swap a y _)
      · have hq' : q y = false := by
          cases hb : q y with
          | false => rfl
          | true => exact absurd hb hq
        have h1 : (y :: ys).filter (fun x => x.id == a.id || q x)
            = ys.filter (fun x => x.id == a.id || q x) := by
          rw [List.filter_cons]
          simp [hya, hq']
        have h2 : (y :: ys).filter (fun x => q x && x.id != a.id)
            = ys.filter (fun x => q x && x.id != a.id) := by
          rw [List.filter_cons]
          simp [hq']
        rw [h1, h2]
        exact ih

theorem rankRange_length (n : Nat) : (rankRange n).length = n := by
  simp [rankRange]

theorem mem_rankRange {x : Int} {n : Nat} (h : x ∈ rankRange n) :
    1 ≤ x ∧ x ≤ (n : Int) := by
  unfold rankRange at h
  obtain ⟨i, hi, rfl⟩ := List.mem_map.mp h
  have := List.mem_range.mp hi
  simp only [Int.ofNat_eq_coe]
  omega

theorem rankRange_decomp (n1 n2 : Nat) :
    rankRange (n1 + 1 + n2) = rankRange n1 ++ (Int.ofNat n1 + 1) ::
      (List.range n2).map (fun i => Int.ofNat n1 + 2 + Int.ofNat i) := by
  unfold rankRange
  rw [List.range_add, List.range_succ, List.map_append, List.map_append,
    List.map_map]
  simp only [List.map_cons, List.map_nil, List.cons_append, List.nil_append,
    List.append_assoc]
  refine congrArg _ ?_
  refine congrArg (fun t => (Int.ofNat n1 + 1) :: t) ?_
  refine List.map_congr_left ?_
  intro i _
  show Int.ofNat (n1 + 1 + i) + 1 = Int.ofNat n1 + 2 + Int.ofNat i
  simp only [Int.ofNat_eq_coe]
  push_cast
  ring

theorem desc_perm_asc (c : Int) (n : Nat) :
    ((List.range n).map (fun i => c - Int.ofNat i)).Perm
      ((List.range n).map (fun i => c - Int.ofNat n + 1 + Int.ofNat i)) := by
  induction n generalizing c with
  | zero => exact List.Perm.refl _
  | succ n ih =>
    have hlhs : (List.range (n + 1)).map (fun i => c - Int.ofNat i)
        = ((List.range n).map (fun i => c - Int.ofNat i))
          ++ [c - Int.ofNat n] := by
      rw [List.range_succ, List.map_append]
      rfl
    have hrhs : (List.range (n + 1)).map
          (fun i => c - Int.ofNat (n + 1) + 1 + Int.ofNat i)
        = (c - Int.ofNat n) :: (List.range n).map
          (fun i => c - Int.ofNat n + 1 + Int.ofNat i) := by
      rw [List.range_succ_eq_map, List.map_cons, List.map_map]
      refine congrArg₂ _ (by simp only [Int.ofNat_eq_coe]; push_cast; ring) ?_
      refine List.map_congr_left ?_
      intro i _
      show c - Int.ofNat (n + 1) + 1 + Int.ofNat (Nat.succ i)
        = c - Int.ofNat n + 1 + Int.ofNat i
      simp only [Int.ofNat_eq_coe]
      push_cast
      ring
    rw [hlhs, hrhs]
    exact (List.perm_append_singleton _ _).trans ((ih c).cons _)

theorem filter_map_eq (F : Item → Item) (p : Item → Bool) (l : List Item) :
    (l.map F).filter p = (l.filter (fun x => p (F x))).map F := by
  induction l with
  | nil => rfl
  | cons y ys ih =>
    simp only [List.map_cons, List.filter_cons]
    by_cases hp : p (F y) = true
    · simp only [hp, if_true, List.map_cons, ih]
    · simp only [hp, Bool.false_eq_true, if_false, ih]

/-- The pointwise effect of the whole write sequence on one row. -/
def moveStep (model : Item) (orderReq : Int)
    (slice1 slice2 oldSibs : List Item) (x : Item) : Item :=
  applySubUpds (enumSubs oldSibs (fun i => Int.ofNat i + 1))
    (modelSave model.id orderReq (Int.ofNat slice1.length + 1)
      (applySubUpds (enumSubs slice2 (fun i =>
          (Int.ofNat slice1.length + 1 + Int.ofNat slice2.length) - Int.ofNat i))
        (applySubUpds (enumSubs slice1 (fun i => Int.ofNat i + 1))
          (modelSave model.id orderReq 0 x))))

theorem modelSave_id (iid ord sub : Int) (x : Item) :
    (modelSave iid ord sub x).id = x.id := by
  unfold modelSave
  by_cases hc : (x.id == iid) = true <;> simp [hc]

theorem modelSave_hit {iid : Int} {x : Item} (h : x.id = iid) (ord sub : Int) :
    modelSave iid ord sub x = { x with order := ord, suborder := sub } := by
  unfold modelSave
  simp [h]

theorem modelSave_skip {iid : Int} {x : Item} (h : x.id ≠ iid) (ord sub : Int) :
    modelSave iid ord sub x = x := by
  unfold modelSave
  simp [h]

theorem movePipeline_eq_map (st : IState) (model : Item) (orderReq : Int)
    (slice1 slice2 oldSibs : List Item) :
    movePipeline st model orderReq slice1 slice2 oldSibs
      = st.map (moveStep model orderReq slice1 slice2 oldSibs) := by
  unfold movePipeline
  rw [saveSubs_eq_map, saveSubs_eq_map, saveSubs_eq_map]
  unfold saveOrderSub
  simp only [List.map_map]
  exact List.map_congr_left (fun a _ => rfl)

theorem moveStep_id (model : Item) (orderReq : Int)
    (slice1 slice2 oldSibs : List Item) (x : Item) :
    (moveStep model orderReq slice1 slice2 oldSibs x).id = x.id := by
  unfold moveStep
  rw [(applySubUpds_id _ _).1, modelSave_id, (applySubUpds_id _ _).1,
    (applySubUpds_id _ _).1, modelSave_id]

theorem moveStep_order (model : Item) (orderReq : Int)
    (slice1 slice2 oldSibs : List Item) (x : Item) :
    (moveStep model orderReq slice1 slice2 oldSibs x).order
      = if x.id = model.id then orderReq else x.order := by
  unfold moveStep
  rw [(applySubUpds_id _ _).2.1]
  by_cases hc : x.id = model.id
  · rw [if_pos hc]
    have hid : (applySubUpds (enumSubs slice2 (fun i =>
        (Int.ofNat slice1.length + 1 + Int.ofNat slice2.length) - Int.ofNat i))
        (applySubUpds (enumSubs slice1 (fun i => Int.ofNat i + 1))
          (modelSave model.id orderReq 0 x))).id = model.id := by
      rw [(applySubUpds_id _ _).1, (applySubUpds_id _ _).1, modelSave_id]
      exact hc
    rw [modelSave_hit hid]
  · rw [if_neg hc]
    have hid : (applySubUpds (enumSubs slice2 (fun i =>
        (Int.ofNat slice1.length + 1 + Int.ofNat slice2.length) - Int.ofNat i))
        (applySubUpds (enumSubs slice1 (fun i => Int.ofNat i + 1))
          (modelSave model.id orderReq 0 x))).id = x.id := by
      rw [(applySubUpds_id _ _).1, (applySubUpds_id _ _).1, modelSave_id]
    rw [modelSave_skip (hid ▸ hc)]
    rw [(applySubUpds_id _ _).2.1, (applySubUpds_id _ _).2.1, modelSave_skip hc]

theorem moveStep_untouched (model : Item) (orderReq : Int)
    (slice1 slice2 oldSibs : List Item) {x : Item}
    (hne : x.id ≠ model.id)
    (h1 : x.id ∉ slice1.map (fun y => y.id))
    (h2 : x.id ∉ slice2.map (fun y => y.id))
    (h3 : x.id ∉ oldSibs.map (fun y => y.id)) :
    moveStep model orderReq slice1 slice2 oldSibs x = x := by
  unfold moveStep
  have e0 : modelSave model.id orderReq 0 x = x := modelSave_skip hne _ _
  have e1 : applySubUpds (enumSubs slice1 (fun j => Int.ofNat j + 1)) x = x :=
    applySubUpds_skip (by rw [enumSubs_fst]; exact h1)
  have e2 : applySubUpds (enumSubs slice2 (fun j =>
      (Int.ofNat slice1.length + 1 + Int.ofNat slice2.length) - Int.ofNat j)) x
      = x :=
    applySubUpds_skip (by rw [enumSubs_fst]; exact h2)
  have e3 : modelSave model.id orderReq (Int.ofNat slice1.length + 1) x = x :=
    modelSave_skip hne _ _
  have e4 : applySubUpds (enumSubs oldSibs (fun j => Int.ofNat j + 1)) x = x :=
    applySubUpds_skip (by rw [enumSubs_fst]; exact h3)
  rw [e0, e1, e2, e3, e4]

theorem moveStep_model (model : Item) (orderReq : Int)
    (slice1 slice2 oldSibs : List Item)
    (h1 : model.id ∉ slice1.map (fun y => y.id))
    (h2 : model.id ∉ slice2.map (fun y => y.id))
    (h3 : model.id ∉ oldSibs.map (fun y => y.id)) :
    moveStep model orderReq slice1 slice2 oldSibs model
      = { model with
          order := orderReq, suborder := Int.ofNat slice1.length + 1 } := by
  unfold moveStep
  have e0 : modelSave model.id orderReq 0 model
      = { model with order := orderReq, suborder := 0 } :=
    modelSave_hit rfl _ _
  have e1 : applySubUpds (enumSubs slice1 (fun j => Int.ofNat j + 1))
      { model with order := orderReq, suborder := 0 }
      = { model with order := orderReq, suborder := 0 } :=
    applySubUpds_skip (by rw [enumSubs_fst]; exact h1)
  have e2 : applySubUpds (enumSubs slice2 (fun j =>
      (Int.ofNat slice1.length + 1 + Int.ofNat slice2.length) - Int.ofNat j))
      { model with order := orderReq, suborder := 0 }
      = { model with order := orderReq, suborder := 0 } :=
    applySubUpds_skip (by rw [enumSubs_fst]; exact h2)
  have e3 : modelSave model.id orderReq (Int.ofNat slice1.length + 1)
      { model with order := orderReq, suborder := 0 }
      = { model with
          order := orderReq, suborder := Int.ofNat slice1.length + 1 } := by
    simp [modelSave]
  have e4 : applySubUpds (enumSubs oldSibs (fun j => Int.ofNat j + 1))
      { model with
        order := orderReq, suborder := Int.ofNat slice1.length + 1 }
      = { model with
          order := orderReq, suborder := Int.ofNat slice1.length + 1 } :=
    applySubUpds_skip (by rw [enumSubs_fst]; exact h3)
  rw [e0, e1, e2, e3, e4]

theorem moveStep_slice1_get (model : Item) (orderReq : Int)
    (slice1 slice2 oldSibs : List Item)
    (hn1 : (slice1.map (fun y => y.id)).Nodup)
    (hdm : ∀ y ∈ slice1, y.id ≠ model.id)
    (hd2 : ∀ y ∈ slice1, y.id ∉ slice2.map (fun z => z.id))
    (hdo : ∀ y ∈ slice1, y.id ∉ oldSibs.map (fun z => z.id))
    (i : Nat) (hi : i < slice1.length) :
    moveStep model orderReq slice1 slice2 oldSibs (slice1.get ⟨i, hi⟩)
      = { slice1.get ⟨i, hi⟩ with suborder := Int.ofNat i + 1 } := by
  have hx : slice1.get ⟨i, hi⟩ ∈ slice1 := slice1.get_mem _ _
  unfold moveStep
  have e0 : modelSave model.id orderReq 0 (slice1.get ⟨i, hi⟩)
      = slice1.get ⟨i, hi⟩ := modelSave_skip (hdm _ hx) _ _
  have e1 : applySubUpds (enumSubs slice1 (fun j => Int.ofNat j + 1))
      (slice1.get ⟨i, hi⟩)
      = { slice1.get ⟨i, hi⟩ with suborder := Int.ofNat i + 1 } :=
    applySubUpds_enum_get slice1 _ hn1 i hi
  have e2 : applySubUpds (enumSubs slice2 (fun j =>
      (Int.ofNat slice1.length + 1 + Int.ofNat slice2.length) - Int.ofNat j))
      { slice1.get ⟨i, hi⟩ with suborder := Int.ofNat i + 1 }
      = { slice1.get ⟨i, hi⟩ with suborder := Int.ofNat i + 1 } :=
    by apply applySubUpds_skip; rw [enumSubs_fst]; simpa using hd2 _ hx
  have e3 : modelSave model.id orderReq (Int.ofNat slice1.length + 1)
      { slice1.get ⟨i, hi⟩ with suborder := Int.ofNat i + 1 }
      = { slice1.get ⟨i, hi⟩ with suborder := Int.ofNat i + 1 } :=
    by apply modelSave_skip; simpa using hdm _ hx
  have e4 : applySubUpds (enumSubs oldSibs (fun j => Int.ofNat j + 1))
      { slice1.get ⟨i, hi⟩ with suborder := Int.ofNat i + 1 }
      = { slice1.get ⟨i, hi⟩ with suborder := Int.ofNat i + 1 } :=
    by apply applySubUpds_skip; rw [enumSubs_fst]; simpa using hdo _ hx
  rw [e0, e1, e2, e3, e4]

theorem moveStep_slice2_get (model : Item) (orderReq : Int)
    (slice1 slice2 oldSibs : List Item)
    (hn2 : (slice2.map (fun y => y.id)).Nodup)
    (hdm : ∀ y ∈ slice2, y.id ≠ model.id)
    (hd1 : ∀ y ∈ slice2, y.id ∉ slice1.map (fun z => z.id))
    (hdo : ∀ y ∈ slice2, y.id ∉ oldSibs.map (fun z => z.id))
    (i : Nat) (hi : i < slice2.length) :
    moveStep model orderReq slice1 slice2 oldSibs (slice2.get ⟨i, hi⟩)
      = { slice2.get ⟨i, hi⟩ with
          suborder := Int.ofNat slice1.length + 1 + Int.ofNat slice2.length - Int.ofNat i } := by
  have hx : slice2.get ⟨i, hi⟩ ∈ slice2 := slice2.get_mem _ _
  unfold moveStep
  have e0 : modelSave model.id orderReq 0 (slice2.get ⟨i, hi⟩)
      = slice2.get ⟨i, hi⟩ := modelSave_skip (hdm _ hx) _ _
  have e1 : applySubUpds (enumSubs slice1 (fun j => Int.ofNat j + 1))
      (slice2.get ⟨i, hi⟩) = slice2.get ⟨i, hi⟩ :=
    applySubUpds_skip (by rw [enumSubs_fst]; exact hd1 _ hx)
  have e2 : applySubUpds (enumSubs slice2 (fun j =>
      (Int.ofNat slice1.length + 1 + Int.ofNat slice2.length) - Int.ofNat j))
      (slice2.get ⟨i, hi⟩)
      = { slice2.get ⟨i, hi⟩ with
          suborder := (Int.ofNat slice1.length + 1 + Int.ofNat slice2.length) - Int.ofNat i } :=
    applySubUpds_enum_get slice2 _ hn2 i hi
  have e3 : modelSave model.id orderReq (Int.ofNat slice1.length + 1)
      { slice2.get ⟨i, hi⟩ with
        suborder := (Int.ofNat slice1.length + 1 + Int.ofNat slice2.length) - Int.ofNat i }
      = { slice2.get ⟨i, hi⟩ with
          suborder := (Int.ofNat slice1.length + 1 + Int.ofNat slice2.length) - Int.ofNat i } :=
    by apply modelSave_skip; simpa using hdm _ hx
  have e4 : applySubUpds (enumSubs oldSibs (fun j => Int.ofNat j + 1))
      { slice2.get ⟨i, hi⟩ with
        suborder := (Int.ofNat slice1.length + 1 + Int.ofNat slice2.length) - Int.ofNat i }
      = { slice2.get ⟨i, hi⟩ with
          suborder := (Int.ofNat slice1.length + 1 + Int.ofNat slice2.length) - Int.ofNat i } :=
    by apply applySubUpds_skip; rw [enumSubs_fst]; simpa using hdo _ hx
  rw [e0, e1, e2, e3, e4]
theorem moveStep_old_get (model : Item) (orderReq : Int)
    (slice1 slice2 oldSibs : List Item)
    (hno : (oldSibs.map (fun y => y.id)).Nodup)
    (hdm : ∀ y ∈ oldSibs, y.id ≠ model.id)
    (hd1 : ∀ y ∈ oldSibs, y.id ∉ slice1.map (fun z => z.id))
    (hd2 : ∀ y ∈ oldSibs, y.id ∉ slice2.map (fun z => z.id))
    (i : Nat) (hi : i < oldSibs.length) :
    moveStep model orderReq slice1 slice2 oldSibs (oldSibs.get ⟨i, hi⟩)
      = { oldSibs.get ⟨i, hi⟩ with suborder := Int.ofNat i + 1 } := by
  have hx : oldSibs.get ⟨i, hi⟩ ∈ oldSibs := oldSibs.get_mem _ _
  unfold moveStep
  have e0 : modelSave model.id orderReq 0 (oldSibs.get ⟨i, hi⟩)
      = oldSibs.get ⟨i, hi⟩ := modelSave_skip (hdm _ hx) _ _
  have e1 : applySubUpds (enumSubs slice1 (fun j => Int.ofNat j + 1))
      (oldSibs.get ⟨i, hi⟩) = oldSibs.get ⟨i, hi⟩ :=
    applySubUpds_skip (by rw [enumSubs_fst]; exact hd1 _ hx)
  have e2 : applySubUpds (enumSubs slice2 (fun j =>
      (Int.ofNat slice1.length + 1 + Int.ofNat slice2.length) - Int.ofNat j))
      (oldSibs.get ⟨i, hi⟩) = oldSibs.get ⟨i, hi⟩ :=
    applySubUpds_skip (by rw [enumSubs_fst]; exact hd2 _ hx)
  have e3 : modelSave model.id orderReq (Int.ofNat slice1.length + 1)
      (oldSibs.get ⟨i, hi⟩) = oldSibs.get ⟨i, hi⟩ :=
    modelSave_skip (hdm _ hx) _ _
  have e4 : applySubUpds (enumSubs oldSibs (fun j => Int.ofNat j + 1))
      (oldSibs.get ⟨i, hi⟩)
      = { oldSibs.get ⟨i, hi⟩ with suborder := Int.ofNat i + 1 } :=
    applySubUpds_enum_get oldSibs _ hno i hi
  rw [e0, e1, e2, e3, e4]

theorem moveStep_map_sub_slice1 (model : Item) (orderReq : Int)
    (slice1 slice2 oldSibs : List Item)
    (hn1 : (slice1.map (fun y => y.id)).Nodup)
    (hdm : ∀ y ∈ slice1, y.id ≠ model.id)
    (hd2 : ∀ y ∈ slice1, y.id ∉ slice2.map (fun z => z.id))
    (hdo : ∀ y ∈ slice1, y.id ∉ oldSibs.map (fun z => z.id)) :
    slice1.map (fun x =>
        (moveStep model orderReq slice1 slice2 oldSibs x).suborder)
      = rankRange slice1.length := by
  apply List.ext_get
  · simp [rankRange_length]
  · intro i h1 h2
    rw [List.get_map]
    rw [moveStep_slice1_get model orderReq slice1 slice2 oldSibs hn1 hdm hd2 hdo
      i (by simpa using h1)]
    unfold rankRange
    rw [List.get_map]
    simp [List.get_range]

theorem moveStep_map_sub_slice2 (model : Item) (orderReq : Int)
    (slice1 slice2 oldSibs : List Item)
    (hn2 : (slice2.map (fun y => y.id)).Nodup)
    (hdm : ∀ y ∈ slice2, y.id ≠ model.id)
    (hd1 : ∀ y ∈ slice2, y.id ∉ slice1.map (fun z => z.id))
    (hdo : ∀ y ∈ slice2, y.id ∉ oldSibs.map (fun z => z.id)) :
    slice2.map (fun x =>
        (moveStep model orderReq slice1 slice2 oldSibs x).suborder)
      = (List.range slice2.length).map (fun i =>
          (Int.ofNat slice1.length + 1 + Int.ofNat slice2.length)
            - Int.ofNat i) := by
  apply List.ext_get
  · simp
  · intro i h1 h2
    rw [List.get_map]
    rw [moveStep_slice2_get model orderReq slice1 slice2 oldSibs hn2 hdm hd1 hdo
      i (by simpa using h1)]
    rw [List.get_map]
    simp [List.get_range]

theorem moveStep_map_sub_old (model : Item) (orderReq : Int)
    (slice1 slice2 oldSibs : List Item)
    (hno : (oldSibs.map (fun y => y.id)).Nodup)
    (hdm : ∀ y ∈ oldSibs, y.id ≠ model.id)
    (hd1 : ∀ y ∈ oldSibs, y.id ∉ slice1.map (fun z => z.id))
    (hd2 : ∀ y ∈ oldSibs, y.id ∉ slice2.map (fun z => z.id)) :
    oldSibs.map (fun x =>
        (moveStep model orderReq slice1 slice2 oldSibs x).suborder)
      = rankRange oldSibs.length := by
  apply List.ext_get
  · simp [rankRange_length]
  · intro i h1 h2
    rw [List.get_map]
    rw [moveStep_old_get model orderReq slice1 slice2 oldSibs hno hdm hd1 hd2
      i (by simpa using h1)]
    unfold rankRange
    rw [List.get_map]
    simp [List.get_range]

theorem slot_perm_cons (st : IState) (hnodup : nodupIds st) {m : Item}
    (hm : m ∈ st) :
    (slotItems st m.order).Perm
      (m :: st.filter (fun x => x.order == m.order && x.id != m.id)) := by
  have h1 : slotItems st m.order
      = st.filter (fun x => x.id == m.id || x.order == m.order) := by
    unfold slotItems
    refine List.filter_congr ?_
    intro x hx
    by_cases hc : x.id = m.id
    · have hxm : x = m := id_inj hnodup hx hm hc
      subst hxm
      simp
    · simp [hc]
  rw [h1]
  exact filter_id_or_perm st m _ hm hnodup

theorem denseState_of_forall_mem (st : IState)
    (h : ∀ o ∈ st.map (fun x => x.order), denseSlot st o) : denseState st := by
  intro o
  by_cases ho : o ∈ st.map (fun x => x.order)
  · exact h o ho
  · have hempty : slotItems st o = [] := by
      unfold slotItems
      exact List.filter_eq_nil_iff.mpr
        (fun x hx hpx => ho (List.mem_map.mpr ⟨x, hx, by simpa using hpx⟩))
    unfold denseSlot
    rw [hempty]
    simp [rankRange]

theorem moveStep_untouched_slot (st : IState) (model : Item) (orderReq o : Int)
    (slice1 slice2 oldSibs : List Item)
    (hnodup : nodupIds st) (hdense : denseState st) (hmem : model ∈ st)
    (hslice : ∀ y ∈ slice1 ++ slice2, y ∈ st ∧ y.order = orderReq ∧ y.id ≠ model.id)
    (holdmem : ∀ y ∈ oldSibs, y ∈ st ∧ y.order = model.order ∧ y.id ≠ model.id)
    (ho : o ≠ orderReq) (ho2 : o ≠ model.order) :
    ((slotItems (st.map (moveStep model orderReq slice1 slice2 oldSibs)) o).map
        (fun x => x.suborder)).Perm
      (rankRange
        (slotItems (st.map (moveStep model orderReq slice1 slice2 oldSibs)) o).length) := by
  have hfm : slotItems (st.map (moveStep model orderReq slice1 slice2 oldSibs)) o
      = (st.filter (fun x =>
          (moveStep model orderReq slice1 slice2 oldSibs x).order == o)).map
        (moveStep model orderReq slice1 slice2 oldSibs) := by
    unfold slotItems
    exact filter_map_eq _ _ st
  rw [hfm]
  have hpq : ∀ x ∈ st,
      ((moveStep model orderReq slice1 slice2 oldSibs x).order == o)
        = (x.order == o) := by
    intro x hx
    rw [moveStep_order]
    by_cases hc : x.id = model.id
    · have hxm : x = model := id_inj hnodup hx hmem hc
      rw [if_pos hc]
      have l : (orderReq == o) = false := by simpa using Ne.symm ho
      have r : (x.order == o) = false := by
        rw [hxm]
        simpa using Ne.symm ho2
      rw [l, r]
    · rw [if_neg hc]
  rw [List.filter_congr hpq]
  have hFx : ∀ x ∈ st.filter (fun x => x.order == o),
      moveStep model orderReq slice1 slice2 oldSibs x = x := by
    intro x hxf
    have hx := List.mem_filter.mp hxf
    have hxo : x.order = o := by simpa using hx.2
    have hxm : x.id ≠ model.id := by
      intro he
      have hxe : x = model := id_inj hnodup hx.1 hmem he
      exact ho2 (by rw [← hxo, hxe])
    refine moveStep_untouched _ _ _ _ _ hxm ?_ ?_ ?_
    · intro hmm
      obtain ⟨z, hz, hzid⟩ := List.mem_map.mp hmm
      have hzx : z = x :=
        id_inj hnodup (hslice z (List.mem_append_left _ hz)).1 hx.1 hzid
      have hzo : z.order = orderReq := (hslice z (List.mem_append_left _ hz)).2.1
      rw [hzx] at hzo
      exact ho (hxo ▸ hzo)
    · intro hmm
      obtain ⟨z, hz, hzid⟩ := List.mem_map.mp hmm
      have hzx : z = x :=
        id_inj hnodup (hslice z (List.mem_append_right _ hz)).1 hx.1 hzid
      have hzo : z.order = orderReq := (hslice z (List.mem_append_right _ hz)).2.1
      rw [hzx] at hzo
      exact ho (hxo ▸ hzo)
    · intro hmm
      obtain ⟨z, hz, hzid⟩ := List.mem_map.mp hmm
      have hzx : z = x := id_inj hnodup (holdmem z hz).1 hx.1 hzid
      have hzo : z.order = model.order := (holdmem z hz).2.1
      rw [hzx] at hzo
      exact ho2 (hxo ▸ hzo)
  have hmapeq : (st.filter (fun x => x.order == o)).map
      (moveStep model orderReq slice1 slice2 oldSibs)
      = st.filter (fun x => x.order == o) :=
    (List.map_congr_left hFx).trans (List.map_id _)
  rw [hmapeq]
  exact hdense o

/-- The write pipeline preserves slot density whenever its slice arguments
decompose the destination slot (minus the moved row) and `oldSibs` is either
empty (same-slot move) or the source slot minus the moved row. -/
theorem movePipeline_dense (st : IState) (model : Item) (orderReq : Int)
    (slice1 slice2 oldSibs : List Item)
    (hnodup : nodupIds st) (hdense : denseState st) (hmem : model ∈ st)
    (hperm : (slice1 ++ slice2).Perm
      (st.filter (fun x => x.order == orderReq && x.id != model.id)))
    (hold : (oldSibs = [] ∧ model.order = orderReq) ∨
      (model.order ≠ orderReq ∧ oldSibs.Perm
        (st.filter (fun x => x.order == model.order && x.id != model.id)))) :
    denseState (movePipeline st model orderReq slice1 slice2 oldSibs) := by
  have hslice : ∀ y ∈ slice1 ++ slice2,
      y ∈ st ∧ y.order = orderReq ∧ y.id ≠ model.id := by
    intro y hy
    have hf := List.mem_filter.mp (hperm.subset hy)
    have hcond := hf.2
    simp only [Bool.and_eq_true, beq_iff_eq, bne_iff_ne, ne_eq] at hcond
    exact ⟨hf.1, hcond.1, hcond.2⟩
  have holdmem : ∀ y ∈ oldSibs,
      y ∈ st ∧ y.order = model.order ∧ y.id ≠ model.id := by
    rcases hold with ⟨he, _⟩ | ⟨_, hp⟩
    · intro y hy
      rw [he] at hy
      cases hy
    · intro y hy
      have hf := List.mem_filter.mp (hp.subset hy)
      have hcond := hf.2
      simp only [Bool.and_eq_true, beq_iff_eq, bne_iff_ne, ne_eq] at hcond
      exact ⟨hf.1, hcond.1, hcond.2⟩
  have hidsboth : ((slice1 ++ slice2).map (fun x => x.id)).Nodup := by
    have hsubl : ((st.filter
          (fun x => x.order == orderReq && x.id != model.id)).map
        (fun x => x.id)).Sublist (st.map (fun x => x.id)) :=
      (List.filter_sublist st).map _
    exact ((hperm.map (fun x => x.id)).nodup_iff).mpr (hsubl.nodup hnodup)
  rw [List.map_append, List.nodup_append] at hidsboth
  have hn1 : (slice1.map (fun x => x.id)).Nodup := hidsboth.1
  have hn2 : (slice2.map (fun x => x.id)).Nodup := hidsboth.2.1
  have hdisj : ∀ a, a ∈ slice1.map (fun x => x.id) →
      a ∈ slice2.map (fun x => x.id) → False :=
    fun _ h1 h2 => hidsboth.2.2 h1 h2
  have hno : (oldSibs.map (fun x => x.id)).Nodup := by
    rcases hold with ⟨he, _⟩ | ⟨_, hp⟩
    · rw [he]
      exact List.nodup_nil
    · have hsubl : ((st.filter
            (fun x => x.order == model.order && x.id != model.id)).map
          (fun x => x.id)).Sublist (st.map (fun x => x.id)) :=
        (List.filter_sublist st).map _
      exact ((hp.map (fun x => x.id)).nodup_iff).mpr (hsubl.nodup hnodup)
  have hdm1 : ∀ y ∈ slice1, y.id ≠ model.id :=
    fun y hy => (hslice y (List.mem_append_left _ hy)).2.2
  have hdm2 : ∀ y ∈ slice2, y.id ≠ model.id :=
    fun y hy => (hslice y (List.mem_append_right _ hy)).2.2
  have hdmo : ∀ y ∈ oldSibs, y.id ≠ model.id :=
    fun y hy => (holdmem y hy).2.2
  have hd12 : ∀ y ∈ slice1, y.id ∉ slice2.map (fun z => z.id) :=
    fun y hy h => hdisj _ (List.mem_map_of_mem _ hy) h
  have hd21 : ∀ y ∈ slice2, y.id ∉ slice1.map (fun z => z.id) :=
    fun y hy h => hdisj _ h (List.mem_map_of_mem _ hy)
  have hcross : ∀ (A B : List Item) (oA oB : Int),
      (∀ y ∈ A, y ∈ st ∧ y.order = oA) → (∀ y ∈ B, y ∈ st ∧ y.order = oB) →
      oA ≠ oB → ∀ y ∈ A, y.id ∉ B.map (fun z => z.id) := by
    intro A B oA oB hA hB hne y hy hmm
    obtain ⟨z, hz, hzid⟩ := List.mem_map.mp hmm
    have hzy : z = y := id_inj hnodup (hB z hz).1 (hA y hy).1 hzid
    have h2 : z.order = oB := (hB z hz).2
    rw [hzy] at h2
    exact hne (((hA y hy).2).symm.trans h2)
  have hd1o : ∀ y ∈ slice1, y.id ∉ oldSibs.map (fun z => z.id) := by
    rcases hold with ⟨he, _⟩ | ⟨hneq, _⟩
    · intro y _ h
      rw [he] at h
      cases h
    · exact hcross slice1 oldSibs orderReq model.order
        (fun y hy => ⟨(hslice y (List.mem_append_left _ hy)).1,
          (hslice y (List.mem_append_left _ hy)).2.1⟩)
        (fun y hy => ⟨(holdmem y hy).1, (holdmem y hy).2.1⟩)
        (Ne.symm hneq)
  have hd2o : ∀ y ∈ slice2, y.id ∉ oldSibs.map (fun z => z.id) := by
    rcases hold with ⟨he, _⟩ | ⟨hneq, _⟩
    · intro y _ h
      rw [he] at h
      cases h
    · exact hcross slice2 oldSibs orderReq model.order
        (fun y hy => ⟨(hslice y (List.mem_append_right _ hy)).1,
          (hslice y (List.mem_append_right _ hy)).2.1⟩)
        (fun y hy => ⟨(holdmem y hy).1, (holdmem y hy).2.1⟩)
        (Ne.symm hneq)
  have hdo1 : ∀ y ∈ oldSibs, y.id ∉ slice1.map (fun z => z.id) := by
    rcases hold with ⟨he, _⟩ | ⟨hneq, _⟩
    · intro y hy
      rw [he] at hy
      cases hy
    · exact hcross oldSibs slice1 model.order orderReq
        (fun y hy => ⟨(holdmem y hy).1, (holdmem y hy).2.1⟩)
        (fun y hy => ⟨(hslice y (List.mem_append_left _ hy)).1,
          (hslice y (List.mem_append_left _ hy)).2.1⟩)
        hneq
  have hdo2 : ∀ y ∈ oldSibs, y.id ∉ slice2.map (fun z => z.id) := by
    rcases hold with ⟨he, _⟩ | ⟨hneq, _⟩
    · intro y hy
      rw [he] at hy
      cases hy
    · exact hcross oldSibs slice2 model.order orderReq
        (fun y hy => ⟨(holdmem y hy).1, (holdmem y hy).2.1⟩)
        (fun y hy => ⟨(hslice y (List.mem_append_right _ hy)).1,
          (hslice y (List.mem_append_right _ hy)).2.1⟩)
        hneq
  have hm1 : model.id ∉ slice1.map (fun y => y.id) := by
    intro h
    obtain ⟨z, hz, hzid⟩ := List.mem_map.mp h
    exact (hdm1 z hz) hzid
  have hm2 : model.id ∉ slice2.map (fun y => y.id) := by
    intro h
    obtain ⟨z, hz, hzid⟩ := List.mem_map.mp h
    exact (hdm2 z hz) hzid
  have hmo : model.id ∉ oldSibs.map (fun y => y.id) := by
    intro h
    obtain ⟨z, hz, hzid⟩ := List.mem_map.mp h
    exact (hdmo z hz) hzid
  intro o
  rw [movePipeline_eq_map]
  unfold denseSlot
  by_cases ho : o = orderReq
  · -- destination slot
    rw [ho]
    have hfm : slotItems (st.map (moveStep model orderReq slice1 slice2 oldSibs))
          orderReq
        = (st.filter (fun x =>
            (moveStep model orderReq slice1 slice2 oldSibs x).order == orderReq)).map
          (moveStep model orderReq slice1 slice2 oldSibs) := by
      unfold slotItems
      exact filter_map_eq _ _ st
    rw [hfm]
    have hpq : ∀ x ∈ st,
        ((moveStep model orderReq slice1 slice2 oldSibs x).order == orderReq)
          = (x.id == model.id || x.order == orderReq) := by
      intro x _
      rw [moveStep_order]
      by_cases hc : x.id = model.id
      · simp [hc]
      · simp [hc]
    rw [List.filter_congr hpq]
    have hq : (st.filter
          (fun x => x.id == model.id || x.order == orderReq)).Perm
        (model :: (slice1 ++ slice2)) :=
      (filter_id_or_perm st model (fun x => x.order == orderReq) hmem
        hnodup).trans ((hperm.symm).cons model)
    have hsubperm : (((st.filter
          (fun x => x.id == model.id || x.order == orderReq)).map
          (moveStep model orderReq slice1 slice2 oldSibs)).map
          (fun x => x.suborder)).Perm
        (((model :: (slice1 ++ slice2)).map
          (moveStep model orderReq slice1 slice2 oldSibs)).map
          (fun x => x.suborder)) :=
      (hq.map _).map _
    have hlen : ((st.filter
          (fun x => x.id == model.id || x.order == orderReq)).map
          (moveStep model orderReq slice1 slice2 oldSibs)).length
        = slice1.length + 1 + slice2.length := by
      rw [List.length_map]
      have := hq.length_eq
      simp only [List.length_cons, List.length_append] at this
      omega
    rw [hlen]
    refine hsubperm.trans ?_
    have hrhs : ((model :: (slice1 ++ slice2)).map
          (moveStep model orderReq slice1 slice2 oldSibs)).map
          (fun x => x.suborder)
        = (Int.ofNat slice1.length + 1) ::
          (rankRange slice1.length ++
            (List.range slice2.length).map (fun i =>
              (Int.ofNat slice1.length + 1 + Int.ofNat slice2.length)
                - Int.ofNat i)) := by
      simp only [List.map_cons, List.map_append, List.map_map, Function.comp]
      rw [moveStep_model model orderReq slice1 slice2 oldSibs hm1 hm2 hmo]
      refine congrArg₂ _ rfl (congrArg₂ _ ?_ ?_)
      · exact moveStep_map_sub_slice1 model orderReq slice1 slice2 oldSibs
          hn1 hdm1 hd12 hd1o
      · exact moveStep_map_sub_slice2 model orderReq slice1 slice2 oldSibs
          hn2 hdm2 hd21 hd2o
    rw [hrhs]
    rw [rankRange_decomp slice1.length slice2.length]
    refine List.Perm.trans ?_ List.perm_middle.symm
    refine List.Perm.cons _ ((List.Perm.refl _).append ?_)
    refine (desc_perm_asc _ _).trans ?_
    have heq : (List.range slice2.length).map (fun i =>
          (Int.ofNat slice1.length + 1 + Int.ofNat slice2.length)
            - Int.ofNat slice2.length + 1 + Int.ofNat i)
        = (List.range slice2.length).map (fun i =>
          Int.ofNat slice1.length + 2 + Int.ofNat i) := by
      refine List.map_congr_left ?_
      intro i _
      simp only [Int.ofNat_eq_coe]
      ring
    rw [heq]
  · rcases hold with ⟨he, heq⟩ | ⟨hneq, hp⟩
    · -- same-slot move: every other slot is untouched
      have ho2 : o ≠ model.order := by
        rw [heq]
        exact ho
      exact moveStep_untouched_slot st model orderReq o slice1 slice2 oldSibs
        hnodup hdense hmem hslice holdmem ho ho2
    · by_cases ho2 : o = model.order
      · -- source slot
        rw [ho2]
        have hfm : slotItems
              (st.map (moveStep model orderReq slice1 slice2 oldSibs)) model.order
            = (st.filter (fun x =>
                (moveStep model orderReq slice1 slice2 oldSibs x).order
                  == model.order)).map
              (moveStep model orderReq slice1 slice2 oldSibs) := by
          unfold slotItems
          exact filter_map_eq _ _ st
        rw [hfm]
        have hpq : ∀ x ∈ st,
            ((moveStep model orderReq slice1 slice2 oldSibs x).order == model.order)
              = (x.order == model.order && x.id != model.id) := by
          intro x _
          rw [moveStep_order]
          by_cases hc : x.id = model.id
          · simp [hc, Ne.symm hneq]
          · simp [hc]
        rw [List.filter_congr hpq]
        have hsubperm : (((st.filter
              (fun x => x.order == model.order && x.id != model.id)).map
              (moveStep model orderReq slice1 slice2 oldSibs)).map
              (fun x => x.suborder)).Perm
            ((oldSibs.map
              (moveStep model orderReq slice1 slice2 oldSibs)).map
              (fun x => x.suborder)) :=
          ((hp.symm).map _).map _
        have hlen : ((st.filter
              (fun x => x.order == model.order && x.id != model.id)).map
              (moveStep model orderReq slice1 slice2 oldSibs)).length
            = oldSibs.length := by
          rw [List.length_map]
          exact (hp.length_eq).symm
        rw [hlen]
        refine hsubperm.trans ?_
        have hrhs : (oldSibs.map
              (moveStep model orderReq slice1 slice2 oldSibs)).map
              (fun x => x.suborder)
            = rankRange oldSibs.length := by
          rw [List.map_map]
          exact moveStep_map_sub_old model orderReq slice1 slice2 oldSibs
            hno hdmo hdo1 hdo2
        rw [hrhs]
      · exact moveStep_untouched_slot st model orderReq o slice1 slice2 oldSibs
          hnodup hdense hmem hslice holdmem ho ho2

theorem sibs_split_perm (sibs : List Item) (s : Int) :
    (sibs.filter (fun x => x.suborder < s) ++
      (sibs.filter (fun x => s ≤ x.suborder)).reverse).Perm sibs := by
  have h1 : sibs.filter (fun x => s ≤ x.suborder)
      = sibs.filter (fun x => !(x.suborder < s)) := by
    refine List.filter_congr ?_
    intro x _
    by_cases h : x.suborder < s
    · have h2 : ¬ s ≤ x.suborder := not_le.mpr h
      simp [h, h2]
    · have h2 : s ≤ x.suborder := not_lt.mp h
      simp [h, h2]
  rw [h1]
  exact ((List.Perm.refl _).append (List.reverse_perm _)).trans
    (List.filter_append_perm _ sibs)

theorem sibs_split_perm_le (sibs : List Item) (s : Int) :
    (sibs.filter (fun x => x.suborder ≤ s) ++
      (sibs.filter (fun x => s < x.suborder)).reverse).Perm sibs := by
  have h1 : sibs.filter (fun x => s < x.suborder)
      = sibs.filter (fun x => !(x.suborder ≤ s)) := by
    refine List.filter_congr ?_
    intro x _
    by_cases h : x.suborder ≤ s
    · have h2 : ¬ s < x.suborder := not_lt.mpr h
      simp [h, h2]
    · have h2 : s < x.suborder := not_le.mp h
      simp [h, h2]
  rw [h1]
  exact ((List.Perm.refl _).append (List.reverse_perm _)).trans
    (List.filter_append_perm _ sibs)

/-- **C6.** For every starting state with unique primary keys in which every
slot's ranks form a dense sequence 1..N, every successful `interstitial` move
request (any item, any destination slot, any accepted destination rank,
including ranks resolved from the append sentinel -1) produces a state in
which every slot's ranks are again exactly {1, …, N} for N the number of rows
in that slot, with no duplicates and no gaps. -/
theorem interstitial_move_preserves_density (st st' : IState)
    (itemId orderReq subReq : Int)
    (hnodup : nodupIds st) (hdense : denseState st)
    (hok : interstitial_move st itemId orderReq subReq = .ok st') :
    denseState st' := by
  unfold interstitial_move at hok
  split at hok
  · exact Except.noConfusion hok
  · rename_i model heq
    have hmem : model ∈ st := List.mem_of_find?_eq_some heq
    split at hok
    · exact Except.noConfusion hok
    · simp only [] at hok
      split at hok
      · exact Except.noConfusion hok
      · rename_i hpos
        split at hok
        · rename_i hA
          injection hok with hst
          subst hst
          refine movePipeline_dense st model orderReq _ _ _ hnodup hdense hmem
            ?_ ?_
          · exact (sibs_split_perm _ _).trans (sortBySub_perm _)
          · refine Or.inr ⟨?_, sortBySub_perm _⟩
            have hne : orderReq ≠ model.order := by simpa using hA
            exact Ne.symm hne
        · rename_i hA
          have hAe : orderReq = model.order := by simpa using hA
          split at hok
          · injection hok with hst
            subst hst
            refine movePipeline_dense st model orderReq _ _ _ hnodup hdense hmem
              ?_ ?_
            · exact (sibs_split_perm _ _).trans (sortBySub_perm _)
            · exact Or.inl ⟨rfl, hAe.symm⟩
          · injection hok with hst
            subst hst
            refine movePipeline_dense st model orderReq _ _ _ hnodup hdense hmem
              ?_ ?_
            · exact (sibs_split_perm_le _ _).trans (sortBySub_perm _)
            · exact Or.inl ⟨rfl, hAe.symm⟩

instance (st : IState) (o : Int) : Decidable (denseSlot st o) := by
  unfold denseSlot
  infer_instance

instance (st : IState) : Decidable (nodupIds st) := by
  unfold nodupIds
  infer_instance

/-- A three-row table: slot 1 holds ranks 1 and 2, slot 2 holds rank 1. -/
def c6st : IState := [⟨1, 1, 1, false⟩, ⟨2, 1, 2, false⟩, ⟨3, 2, 1, false⟩]

/-- The state after moving item 3 into slot 1 at rank 1. -/
def c6out : IState := [⟨1, 1, 2, false⟩, ⟨2, 1, 3, false⟩, ⟨3, 1, 1, false⟩]

/-- Witness for C6: moving item 3 from slot 2 to rank 1 of slot 1 renumbers
both slots densely. -/
theorem interstitial_move_preserves_density_witness : denseState c6out :=
  interstitial_move_preserves_density c6st c6out 3 1 1 (by decide)
    (denseState_of_forall_mem c6st (by decide)) (by rfl)

theorem insertBySub_sorted {l : List Item} (x : Item)
    (h : l.Pairwise (fun a b => a.suborder ≤ b.suborder)) :
    (insertBySub x l).Pairwise (fun a b => a.suborder ≤ b.suborder) := by
  induction l with
  | nil => simp [insertBySub]
  | cons y ys ih =>
    rw [insertBySub]
    by_cases hc : x.suborder ≤ y.suborder
    · rw [if_pos hc]
      refine List.Pairwise.cons ?_ h
      intro z hz
      rcases List.mem_cons.mp hz with rfl | hzys
      · exact hc
      · exact le_trans hc ((List.pairwise_cons.mp h).1 z hzys)
    · rw [if_neg hc]
      have hys := (List.pairwise_cons.mp h).2
      refine List.Pairwise.cons ?_ (ih hys)
      intro z hz
      have hmem : z = x ∨ z ∈ ys := by
        rcases List.mem_cons.mp ((insertBySub_perm x ys).subset hz) with h1 | h2
        · exact Or.inl h1
        · exact Or.inr h2
      rcases hmem with rfl | hzys
      · omega
      · exact (List.pairwise_cons.mp h).1 z hzys

theorem sortBySub_sorted (l : List Item) :
    (sortBySub l).Pairwise (fun a b => a.suborder ≤ b.suborder) := by
  unfold sortBySub
  induction l with
  | nil => simp
  | cons y ys ih => exact insertBySub_sorted y ih

theorem rankRange_sorted (n : Nat) :
    (rankRange n).Pairwise (fun a b => a ≤ b) := by
  unfold rankRange
  rw [List.pairwise_map]
  refine (List.pairwise_lt_range n).imp ?_
  intro a b hab
  simp only [Int.ofNat_eq_coe]
  omega

theorem map_add_range_sorted (c : Int) (n : Nat) :
    ((List.range n).map (fun i => c + Int.ofNat i)).Pairwise
      (fun a b => a ≤ b) := by
  rw [List.pairwise_map]
  refine (List.pairwise_lt_range n).imp ?_
  intro a b hab
  simp only [Int.ofNat_eq_coe]
  omega

theorem asc_reverse_eq (c : Int) (n : Nat) :
    ((List.range n).map (fun i => c + Int.ofNat i)).reverse
      = (List.range n).map (fun i => c + Int.ofNat n - 1 - Int.ofNat i) := by
  induction n with
  | zero => rfl
  | succ n ih =>
    have hL : (List.range (n + 1)).map (fun i => c + Int.ofNat i)
        = ((List.range n).map (fun i => c + Int.ofNat i)) ++ [c + Int.ofNat n] := by
      rw [List.range_succ, List.map_append]
      rfl
    rw [hL, List.reverse_append]
    simp only [List.reverse_cons, List.reverse_nil, List.nil_append,
      List.singleton_append]
    rw [ih]
    rw [List.range_succ_eq_map, List.map_cons, List.map_map]
    refine congrArg₂ _ ?_ ?_
    · simp only [Int.ofNat_eq_coe]
      push_cast
      ring
    · refine List.map_congr_left ?_
      intro i _
      show c + Int.ofNat n - 1 - Int.ofNat i
        = c + Int.ofNat (n + 1) - 1 - Int.ofNat (i + 1)
      simp only [Int.ofNat_eq_coe]
      push_cast
      ring

theorem map_sub_filter (l : List Item) (p : Int → Bool) :
    (l.filter (fun x => p x.suborder)).map (fun x => x.suborder)
      = (l.map (fun x => x.suborder)).filter p := by
  induction l with
  | nil => rfl
  | cons y ys ih =>
    simp only [List.filter_cons, List.map_cons]
    by_cases hp : p y.suborder = true
    · simp only [hp, if_true, List.map_cons, ih, List.filter_cons]
    · simp only [hp, Bool.false_eq_true, if_false, ih, List.filter_cons]

theorem get_sub_of_map_eq {l : List Item} {r : List Int}
    (h : l.map (fun x => x.suborder) = r) (i : Nat) (hi : i < l.length)
    (hr : i < r.length) :
    (l.get ⟨i, hi⟩).suborder = r.get ⟨i, hr⟩ := by
  subst h
  rw [List.get_map]

theorem rankRange_get (n i : Nat) (h : i < (rankRange n).length) :
    (rankRange n).get ⟨i, h⟩ = Int.ofNat i + 1 := by
  unfold rankRange at h ⊢
  rw [List.get_map]
  simp [List.get_range]

theorem map_range_get (f : Nat → Int) (n i : Nat)
    (h : i < ((List.range n).map f).length) :
    ((List.range n).map f).get ⟨i, h⟩ = f i := by
  rw [List.get_map]
  simp [List.get_range]

/-- A move that targets the moved row's own slot and rank rewrites every row
with its current values: the third branch of the endpoint renumbers both
slices back to their existing ranks. -/
theorem movePipeline_self_noop (st : IState) (m : Item)
    (sibs slice1 slice2 : List Item)
    (hnodup : nodupIds st) (hdense : denseState st) (hm : m ∈ st)
    (hsibs : sibs = sortBySub
      (st.filter (fun x => x.order == m.order && x.id != m.id)))
    (h1 : slice1 = sibs.filter (fun x => x.suborder ≤ m.suborder))
    (h2 : slice2 = (sibs.filter (fun x => m.suborder < x.suborder)).reverse) :
    movePipeline st m m.order slice1 slice2 [] = st := by
  have hsperm : sibs.Perm
      (st.filter (fun x => x.order == m.order && x.id != m.id)) := by
    rw [hsibs]
    exact sortBySub_perm _
  have hsmem : ∀ y ∈ sibs, y ∈ st ∧ y.order = m.order ∧ y.id ≠ m.id := by
    intro y hy
    have hf := List.mem_filter.mp (hsperm.subset hy)
    have hcond := hf.2
    simp only [Bool.and_eq_true, beq_iff_eq, bne_iff_ne, ne_eq] at hcond
    exact ⟨hf.1, hcond.1, hcond.2⟩
  have hsids : (sibs.map (fun x => x.id)).Nodup := by
    have hsubl : ((st.filter
          (fun x => x.order == m.order && x.id != m.id)).map
        (fun x => x.id)).Sublist (st.map (fun x => x.id)) :=
      (List.filter_sublist st).map _
    exact ((hsperm.map (fun x => x.id)).nodup_iff).mpr (hsubl.nodup hnodup)
  have hsinj : ∀ y ∈ sibs, ∀ z ∈ sibs, y.id = z.id → y = z :=
    fun y hy z hz he => List.inj_on_of_nodup_map hsids hy hz he
  have hsorted : sibs.Pairwise (fun a b => a.suborder ≤ b.suborder) := by
    rw [hsibs]
    exact sortBySub_sorted _
  have hslotperm := slot_perm_cons st hnodup hm
  have hslot := hdense m.order
  have hcons : (m.suborder :: sibs.map (fun x => x.suborder)).Perm
      (rankRange (slotItems st m.order).length) := by
    have hx1 : (m.suborder :: sibs.map (fun x => x.suborder)).Perm
        (m.suborder :: (st.filter
          (fun x => x.order == m.order && x.id != m.id)).map
            (fun x => x.suborder)) :=
      (hsperm.map _).cons _
    have hx2 : ((slotItems st m.order).map (fun x => x.suborder)).Perm
        (m.suborder :: (st.filter
          (fun x => x.order == m.order && x.id != m.id)).map
            (fun x => x.suborder)) :=
      hslotperm.map _
    exact hx1.trans (hx2.symm.trans hslot)
  have hsmemrank : m.suborder ∈ rankRange (slotItems st m.order).length :=
    hcons.subset (List.mem_cons_self _ _)
  have hrank := mem_rankRange hsmemrank
  obtain ⟨k, hk⟩ : ∃ k, m.suborder.toNat - 1 = k := ⟨_, rfl⟩
  obtain ⟨n2, hn2⟩ : ∃ j, (slotItems st m.order).length - m.suborder.toNat = j :=
    ⟨_, rfl⟩
  have hofk : Int.ofNat k + 1 = m.suborder := by
    have hr1 := hrank.1
    simp only [Int.ofNat_eq_coe]
    omega
  have hNeq : (slotItems st m.order).length = k + 1 + n2 := by
    have hr1 := hrank.1
    have hr2 := hrank.2
    omega
  have hdecomp : rankRange (slotItems st m.order).length
      = rankRange k ++ m.suborder :: (List.range n2).map
          (fun i => Int.ofNat k + 2 + Int.ofNat i) := by
    rw [hNeq, rankRange_decomp, hofk]
  have hsibsmap : (sibs.map (fun x => x.suborder)).Perm
      (rankRange k ++ (List.range n2).map
        (fun i => Int.ofNat k + 2 + Int.ofNat i)) := by
    have hc := hcons
    rw [hdecomp] at hc
    exact (hc.trans List.perm_middle).cons_inv
  have hmap1 : slice1.map (fun x => x.suborder) = rankRange k := by
    have hfeq : slice1.map (fun x => x.suborder)
        = (sibs.map (fun x => x.suborder)).filter
            (fun v => v ≤ m.suborder) := by
      rw [h1]
      exact map_sub_filter sibs (fun v => v ≤ m.suborder)
    have hfr : (rankRange k ++ (List.range n2).map
          (fun i => Int.ofNat k + 2 + Int.ofNat i)).filter
          (fun v => v ≤ m.suborder)
        = rankRange k := by
      rw [List.filter_append]
      have hA : (rankRange k).filter (fun v => v ≤ m.suborder)
          = rankRange k := by
        refine List.filter_eq_self.mpr ?_
        intro v hv
        have hb := mem_rankRange hv
        simp only [decide_eq_true_eq]
        omega
      have hB : ((List.range n2).map
            (fun i => Int.ofNat k + 2 + Int.ofNat i)).filter
            (fun v => v ≤ m.suborder) = [] := by
        refine List.filter_eq_nil_iff.mpr ?_
        intro v hv
        obtain ⟨i, hi, rfl⟩ := List.mem_map.mp hv
        simp only [decide_eq_true_eq, Int.ofNat_eq_coe]
        omega
      rw [hA, hB, List.append_nil]
    have hp : (slice1.map (fun x => x.suborder)).Perm (rankRange k) := by
      rw [hfeq, ← hfr]
      exact hsibsmap.filter _
    have hs1 : (slice1.map (fun x => x.suborder)).Pairwise
        (fun a b => a ≤ b) := by
      rw [List.pairwise_map, h1]
      exact hsorted.filter _
    exact List.eq_of_perm_of_sorted hp hs1 (rankRange_sorted k)
  have hmap2' : (sibs.filter (fun x => m.suborder < x.suborder)).map
        (fun x => x.suborder)
      = (List.range n2).map (fun i => Int.ofNat k + 2 + Int.ofNat i) := by
    have hfeq : (sibs.filter (fun x => m.suborder < x.suborder)).map
          (fun x => x.suborder)
        = (sibs.map (fun x => x.suborder)).filter
            (fun v => m.suborder < v) :=
      map_sub_filter sibs (fun v => m.suborder < v)
    have hfr : (rankRange k ++ (List.range n2).map
          (fun i => Int.ofNat k + 2 + Int.ofNat i)).filter
          (fun v => m.suborder < v)
        = (List.range n2).map (fun i => Int.ofNat k + 2 + Int.ofNat i) := by
      rw [List.filter_append]
      have hA : (rankRange k).filter (fun v => m.suborder < v) = [] := by
        refine List.filter_eq_nil_iff.mpr ?_
        intro v hv
        have hb := mem_rankRange hv
        simp only [decide_eq_true_eq]
        omega
      have hB : ((List.range n2).map
            (fun i => Int.ofNat k + 2 + Int.ofNat i)).filter
            (fun v => m.suborder < v)
          = (List.range n2).map (fun i => Int.ofNat k + 2 + Int.ofNat i) := by
        refine List.filter_eq_self.mpr ?_
        intro v hv
        obtain ⟨i, hi, rfl⟩ := List.mem_map.mp hv
        simp only [decide_eq_true_eq, Int.ofNat_eq_coe]
        omega
      rw [hA, hB, List.nil_append]
    have hp : ((sibs.filter (fun x => m.suborder < x.suborder)).map
          (fun x => x.suborder)).Perm
        ((List.range n2).map (fun i => Int.ofNat k + 2 + Int.ofNat i)) := by
      rw [hfeq, ← hfr]
      exact hsibsmap.filter _
    have hs2 : ((sibs.filter (fun x => m.suborder < x.suborder)).map
          (fun x => x.suborder)).Pairwise (fun a b => a ≤ b) := by
      rw [List.pairwise_map]
      exact hsorted.filter _
    exact List.eq_of_perm_of_sorted hp hs2 (map_add_range_sorted _ n2)
  have hmap2 : slice2.map (fun x => x.suborder)
      = (List.range n2).map (fun i =>
          Int.ofNat k + 2 + Int.ofNat n2 - 1 - Int.ofNat i) := by
    rw [h2, List.map_reverse, hmap2', asc_reverse_eq]
  have hlen1 : slice1.length = k := by
    have hl := congrArg List.length hmap1
    simpa [rankRange_length] using hl
  have hlen2 : slice2.length = n2 := by
    have hl := congrArg List.length hmap2
    simpa using hl
  have hsub1 : ∀ y ∈ slice1, y ∈ sibs ∧ y.suborder ≤ m.suborder := by
    intro y hy
    rw [h1] at hy
    have hf := List.mem_filter.mp hy
    exact ⟨hf.1, by simpa using hf.2⟩
  have hsub2 : ∀ y ∈ slice2, y ∈ sibs ∧ m.suborder < y.suborder := by
    intro y hy
    rw [h2] at hy
    have hf := List.mem_filter.mp (List.mem_reverse.mp hy)
    exact ⟨hf.1, by simpa using hf.2⟩
  have hn1 : (slice1.map (fun x => x.id)).Nodup := by
    rw [h1]
    exact (((List.filter_sublist sibs).map _).nodup) hsids
  have hn2i : (slice2.map (fun x => x.id)).Nodup := by
    rw [h2, List.map_reverse, List.nodup_reverse]
    exact (((List.filter_sublist sibs).map _).nodup) hsids
  have hdm1 : ∀ y ∈ slice1, y.id ≠ m.id :=
    fun y hy => (hsmem y (hsub1 y hy).1).2.2
  have hdm2 : ∀ y ∈ slice2, y.id ≠ m.id :=
    fun y hy => (hsmem y (hsub2 y hy).1).2.2
  have hd12 : ∀ y ∈ slice1, y.id ∉ slice2.map (fun z => z.id) := by
    intro y hy hmm
    obtain ⟨z, hz, hzid⟩ := List.mem_map.mp hmm
    have hzy : z = y := hsinj z (hsub2 z hz).1 y (hsub1 y hy).1 hzid
    have hlt := (hsub2 z hz).2
    rw [hzy] at hlt
    exact absurd (hsub1 y hy).2 (not_le.mpr hlt)
  have hd21 : ∀ y ∈ slice2, y.id ∉ slice1.map (fun z => z.id) := by
    intro y hy hmm
    obtain ⟨z, hz, hzid⟩ := List.mem_map.mp hmm
    have hzy : z = y := hsinj z (hsub1 z hz).1 y (hsub2 y hy).1 hzid
    have hle := (hsub1 z hz).2
    rw [hzy] at hle
    exact absurd hle (not_le.mpr (hsub2 y hy).2)
  have hm1 : m.id ∉ slice1.map (fun y => y.id) := by
    intro h
    obtain ⟨z, hz, hzid⟩ := List.mem_map.mp h
    exact (hdm1 z hz) hzid
  have hm2 : m.id ∉ slice2.map (fun y => y.id) := by
    intro h
    obtain ⟨z, hz, hzid⟩ := List.mem_map.mp h
    exact (hdm2 z hz) hzid
  rw [movePipeline_eq_map]
  have hmain : ∀ x ∈ st, moveStep m m.order slice1 slice2 [] x = x := by
    intro x hx
    by_cases hcid : x.id = m.id
    · have hxm : x = m := id_inj hnodup hx hm hcid
      subst hxm
      rw [moveStep_model x x.order slice1 slice2 [] hm1 hm2 (by simp)]
      have hv : Int.ofNat slice1.length + 1 = x.suborder := by
        rw [hlen1]
        exact hofk
      rw [hv]
    · by_cases hordx : x.order = m.order
      · have hxsibs : x ∈ sibs := by
          refine hsperm.mem_iff.mpr ?_
          refine List.mem_filter.mpr ⟨hx, ?_⟩
          simp [hordx, hcid]
        by_cases hle : x.suborder ≤ m.suborder
        · have hx1 : x ∈ slice1 := by
            rw [h1]
            exact List.mem_filter.mpr ⟨hxsibs, by simpa using hle⟩
          obtain ⟨⟨i, hi⟩, hget⟩ := List.mem_iff_get.mp hx1
          rw [← hget]
          rw [moveStep_slice1_get m m.order slice1 slice2 [] hn1 hdm1 hd12
            (by simp) i hi]
          have hr : i < (rankRange k).length := by
            rw [rankRange_length]
            omega
          have hsv : (slice1.get ⟨i, hi⟩).suborder = Int.ofNat i + 1 :=
            (get_sub_of_map_eq hmap1 i hi hr).trans (rankRange_get k i hr)
          rw [← hsv]
        · have hlt : m.suborder < x.suborder := not_le.mp hle
          have hx2 : x ∈ slice2 := by
            rw [h2]
            refine List.mem_reverse.mpr ?_
            exact List.mem_filter.mpr ⟨hxsibs, by simpa using hlt⟩
          obtain ⟨⟨i, hi⟩, hget⟩ := List.mem_iff_get.mp hx2
          rw [← hget]
          rw [moveStep_slice2_get m m.order slice1 slice2 [] hn2i hdm2 hd21
            (by simp) i hi]
          have hr : i < ((List.range n2).map (fun j =>
              Int.ofNat k + 2 + Int.ofNat n2 - 1 - Int.ofNat j)).length := by
            simp only [List.length_map, List.length_range]
            omega
          have hsv : (slice2.get ⟨i, hi⟩).suborder
              = Int.ofNat k + 2 + Int.ofNat n2 - 1 - Int.ofNat i :=
            (get_sub_of_map_eq hmap2 i hi hr).trans (map_range_get _ n2 i hr)
          have hval : Int.ofNat slice1.length + 1 + Int.ofNat slice2.length
              - Int.ofNat i = (slice2.get ⟨i, hi⟩).suborder := by
            rw [hsv, hlen1, hlen2]
            simp only [Int.ofNat_eq_coe]
            ring
          rw [hval]
      · refine moveStep_untouched m m.order slice1 slice2 [] hcid ?_ ?_ (by simp)
        · intro hmm
          obtain ⟨z, hz, hzid⟩ := List.mem_map.mp hmm
          have hzst := (hsmem z (hsub1 z hz).1).1
          have hzx : z = x := id_inj hnodup hzst hx hzid
          have hzo := (hsmem z (hsub1 z hz).1).2.1
          rw [hzx] at hzo
          exact hordx hzo
        · intro hmm
          obtain ⟨z, hz, hzid⟩ := List.mem_map.mp hmm
          have hzst := (hsmem z (hsub2 z hz).1).1
          have hzx : z = x := id_inj hnodup hzst hx hzid
          have hzo := (hsmem z (hsub2 z hz).1).2.1
          rw [hzx] at hzo
          exact hordx hzo
  exact (List.map_congr_left hmain).trans (List.map_id _)

/-- **C7.** For every starting state with unique primary keys and dense 1..N
ranks per slot, a successful move request whose destination slot and rank
equal the moved item's current slot and rank leaves the final (slot, rank)
assignment of every item — the whole state — identical to the starting
state. -/
theorem interstitial_move_same_position_noop (st st' : IState) (m : Item)
    (hnodup : nodupIds st) (hdense : denseState st) (hm : m ∈ st)
    (hok : interstitial_move st m.id m.order m.suborder = .ok st') :
    st' = st := by
  have hpos1 : 1 ≤ m.suborder := by
    have hmslot : m ∈ slotItems st m.order := by
      refine List.mem_filter.mpr ⟨hm, ?_⟩
      simp
    have hmsub : m.suborder ∈ (slotItems st m.order).map
        (fun x => x.suborder) := List.mem_map_of_mem _ hmslot
    exact (mem_rankRange ((hdense m.order).subset hmsub)).1
  unfold interstitial_move at hok
  split at hok
  · exact Except.noConfusion hok
  · rename_i model heq
    have hmm : model = m := by
      have hmemm : model ∈ st := List.mem_of_find?_eq_some heq
      have hidm := List.find?_some heq
      exact id_inj hnodup hmemm hm (by simpa using hidm)
    subst hmm
    split at hok
    · exact Except.noConfusion hok
    · simp only [] at hok
      have hres : resolveSub
          (sortBySub (st.filter (fun x => x.order == model.order)))
          model.suborder = model.suborder := by
        unfold resolveSub
        have hne : (model.suborder == -1) = false := by
          simp only [beq_eq_false_iff_ne, ne_eq]
          omega
        rw [hne]
        simp
      rw [hres] at hok
      split at hok
      · exact Except.noConfusion hok
      · rename_i hpos
        have hA : (model.order != model.order) = false := by simp
        rw [hA] at hok
        simp only [Bool.false_eq_true, if_false, gt_iff_lt,
          lt_self_iff_false] at hok
        injection hok with hst
        rw [← hst]
        exact movePipeline_self_noop st model _ _ _ hnodup hdense hm
          rfl rfl rfl

/-- A two-row slot with ranks 1 and 2. -/
def c7st : IState := [⟨1, 1, 1, false⟩, ⟨2, 1, 2, false⟩]

/-- The item at slot 1, rank 2 of `c7st`. -/
def c7m : Item := ⟨2, 1, 2, false⟩

/-- Witness for C7: moving item 2 to its own slot 1, rank 2 succeeds and
returns the starting state unchanged. -/
theorem interstitial_move_same_position_noop_witness :
    interstitial_move c7st 2 1 2 = .ok c7st ∧ c7st = c7st :=
  ⟨by rfl, interstitial_move_same_position_noop c7st c7st c7m (by decide)
    (denseState_of_forall_mem c7st (by decide)) (by decide) (by rfl)⟩
